import Mathlib

/-!
Verification development for the greyhound-tips automation script
(`Greyhound.py`).  The definitions below are a shallow embedding of the
script's pure text-processing core: lines are `List Char`, Python string
operations (`strip`, `startswith`, `in`, `split('\n')`, `'\n'.join`) are
modelled directly, and the `re.search` calls of the source are implemented
as specialised backtracking matchers with Python's leftmost / greedy / lazy
preference order.
-/

/-- Python `str.isspace` characters relevant to this script (ASCII). -/
def isPySpace (c : Char) : Bool :=
  c = ' ' || c = '\t' || c = '\n' || c = '\r' || c = '\x0b' || c = '\x0c'

/-- Python `str.strip()` on a list of characters. -/
def pyStripL (s : List Char) : List Char :=
  ((s.dropWhile isPySpace).reverse.dropWhile isPySpace).reverse

/-- Python `str.startswith` on lists of characters. -/
def startsWithL (s pre : List Char) : Bool :=
  pre.isPrefixOf s

/-- Python `pat in s` (substring containment) on lists of characters. -/
def containsL (s pat : List Char) : Bool :=
  match s with
  | [] => pat.isPrefixOf []
  | _ :: t => pat.isPrefixOf s || containsL t pat

/-- Python `s.split('\n')`. -/
def splitNL : List Char → List (List Char)
  | [] => [[]]
  | c :: t =>
    let r := splitNL t
    if c = '\n' then [] :: r
    else
      match r with
      | [] => [[c]]
      | h :: rt => (c :: h) :: rt

/-- Python `sep.join(parts)`. -/
def intercalateL (sep : List Char) : List (List Char) → List Char
  | [] => []
  | [x] => x
  | x :: xs => x ++ sep ++ intercalateL sep xs

/-- Python `str.strip()` on a `String`. -/
def pyStripS (s : String) : String :=
  String.mk (pyStripL s.toList)

/-- Python `pat in s` on `String`s. -/
def strContains (s pat : String) : Bool :=
  containsL s.toList pat.toList

/-! ### Backtracking regex primitives

Continuation-passing matchers with Python `re` preference order: greedy
pieces try the longest extension first, lazy pieces the shortest, and
`re.search` tries start positions left to right. -/

/-- Match one literal character. -/
def litChar (c : Char) (k : List Char → Option α) : List Char → Option α
  | x :: t => if x = c then k t else none
  | [] => none

/-- Match a literal character sequence. -/
def litStr (pat : List Char) (k : List Char → Option α) (s : List Char) : Option α :=
  if pat.isPrefixOf s then k (s.drop pat.length) else none

/-- `p*`, greedy: longest match first, backtracking one character at a time. -/
def starChar (p : Char → Bool) (k : List Char → Option α) : List Char → Option α
  | [] => k []
  | x :: t => (if p x then starChar p k t else none) <|> k (x :: t)

/-- `(p+)`, greedy, capturing the consumed characters. -/
def plusCap (p : Char → Bool) (k : List Char → List Char → Option α) :
    List Char → List Char → Option α
  | acc, x :: t =>
    if p x then plusCap p k (acc ++ [x]) t <|> k (acc ++ [x]) t else none
  | _, [] => none

/-- `p*?`, lazy: shortest match first. -/
def lazyStarChar (p : Char → Bool) (k : List Char → Option α) : List Char → Option α
  | [] => k []
  | x :: t => k (x :: t) <|> (if p x then lazyStarChar p k t else none)

/-- `(p+?)`, lazy, capturing the consumed characters. -/
def lazyPlusCap (p : Char → Bool) (k : List Char → List Char → Option α) :
    List Char → List Char → Option α
  | acc, x :: t =>
    if p x then k (acc ++ [x]) t <|> lazyPlusCap p k (acc ++ [x]) t else none
  | _, [] => none

/-- `re.search`: try every start position from the left. -/
def searchRx (m : List Char → Option α) : List Char → Option α
  | [] => m []
  | s@(_ :: t) => m s <|> searchRx m t

/-- `[A-Za-z\s]` character class. -/
def alphaWs (c : Char) : Bool := c.isAlpha || isPySpace c

/-- `.` (any character except newline). -/
def notNL (c : Char) : Bool := c ≠ '\n'

/-! ### The four race-key regexes of `filter_diverse_selections` -/

/-- Match of `Race\s*(\d+).*?\|\s*([A-Za-z\s]+)` anchored at the start of
the input; returns `(race number, track)` captures. -/
def r1At (s : List Char) : Option (List Char × List Char) :=
  litStr "Race".toList (fun s1 =>
    starChar isPySpace (fun s2 =>
      plusCap Char.isDigit (fun g1 s3 =>
        lazyStarChar notNL (fun s4 =>
          litChar '|' (fun s5 =>
            starChar isPySpace (fun s6 =>
              plusCap alphaWs (fun g2 _ => some (g1, g2)) [] s6) s5) s4) s3) [] s2) s1) s

/-- Match of `([A-Za-z\s]+)\s*\|\s*Race\s*(\d+)` anchored at the start;
returns `(track, race number)` captures. -/
def r2At (s : List Char) : Option (List Char × List Char) :=
  plusCap alphaWs (fun g1 s1 =>
    starChar isPySpace (fun s2 =>
      litChar '|' (fun s3 =>
        starChar isPySpace (fun s4 =>
          litStr "Race".toList (fun s5 =>
            starChar isPySpace (fun s6 =>
              plusCap Char.isDigit (fun g2 _ => some (g1, g2)) [] s6) s5) s4) s3) s2) s1) [] s

/-- Match of `Race\s*(\d+)` anchored at the start. -/
def r3At (s : List Char) : Option (List Char) :=
  litStr "Race".toList (fun s1 =>
    starChar isPySpace (fun s2 =>
      plusCap Char.isDigit (fun g _ => some g) [] s2) s1) s

/-- Match of `\|\s*([A-Za-z\s]+?)\s*(?:\n|$)` anchored at the start. -/
def r4At (s : List Char) : Option (List Char) :=
  litChar '|' (fun s1 =>
    starChar isPySpace (fun s2 =>
      lazyPlusCap alphaWs (fun g s3 =>
        starChar isPySpace (fun s4 =>
          if s4.isEmpty || s4.head? = some '\n' then some g else none) s3) [] s2) s1) s

/-- `f"{track.strip().lower()}_{race_num}"`. -/
def mkRaceKey (track num : List Char) : List Char :=
  (pyStripL track).map Char.toLower ++ '_' :: num

/-- The race-key extraction of `filter_diverse_selections` (Greyhound.py
l.786-806 and l.850-868): method 1 tries the two `Race`/`|` patterns,
method 2 falls back to a bare race number plus a `| TRACK` fragment. -/
def extractRaceKey (text : List Char) : Option (List Char) :=
  match searchRx r1At text with
  | some (num, track) => some (mkRaceKey track num)
  | none =>
    match searchRx r2At text with
    | some (track, num) => some (mkRaceKey track num)
    | none =>
      match searchRx r3At text, searchRx r4At text with
      | some num, some track => some (mkRaceKey track num)
      | _, _ => none

/-! ### `filter_diverse_selections` (Greyhound.py l.768-880)

A line of text is one entry of `response_text.split('\n')`.  The loop body
is a six-way `elif` chain; `lineStep` transliterates the chain's guards in
order, and `filterDiverseAux` performs the corresponding actions, carrying
the loop state (`in_selection`, `current_selection`, `used_races`). -/

/-- One entry of `response_text.split('\n')`. -/
abbrev Line := List Char

/-- Guard of the first branch: `line.strip().startswith('🐕 **') and 'Race'
in line) or (line.strip().startswith('🐕') and 'Race' in line)`. -/
def isDogLine (l : Line) : Bool :=
  (startsWithL (pyStripL l) "🐕 **".toList && containsL l "Race".toList) ||
  (startsWithL (pyStripL l) "🐕".toList && containsL l "Race".toList)

/-- Guard of the second branch (section header):
`line.strip().startswith('**') and ('SELECTIONS' in line or 'PLAYS' in line)`. -/
def isSectionHeaderLine (l : Line) : Bool :=
  startsWithL (pyStripL l) "**".toList &&
  (containsL l "SELECTIONS".toList || containsL l "PLAYS".toList)

/-- Guard of the third branch (description line):
`line.strip() and not line.strip().startswith('🐕')`. -/
def isDescLine (l : Line) : Bool :=
  !(pyStripL l).isEmpty && !startsWithL (pyStripL l) "🐕".toList

/-- Guard of the fifth branch: `line.strip() == ''`. -/
def isBlankLine (l : Line) : Bool :=
  (pyStripL l).isEmpty

/-- Which branch of the `elif` chain a line takes, given `in_selection`. -/
inductive LineStep where
  | dog          -- start a new selection (flushing the pending one)
  | header       -- section header: emit it, leave selection mode
  | descr        -- append to the current selection
  | passthrough  -- not in a selection: emit the line
  | blankInSel   -- blank line inside a selection: append to it
  | dropped      -- 🐕-line without 'Race' inside a selection: silently lost
deriving DecidableEq, Repr

/-- Transliteration of the `elif` chain of the loop body (l.776-843). -/
def lineStep (inSel : Bool) (l : Line) : LineStep :=
  if isDogLine l then .dog
  else if inSel && isSectionHeaderLine l then .header
  else if inSel && isDescLine l then .descr
  else if !inSel then .passthrough
  else if isBlankLine l then .blankInSel
  else .dropped

/-- `'\n'.join(current_selection)` followed by the key extraction. -/
def blockKey (b : List Line) : Option (List Char) :=
  extractRaceKey (intercalateL ['\n'] b)

/-- The filter loop.  `cur` is `current_selection`, `used` is `used_races`;
the returned list is everything appended to `filtered_lines` from this
point on (blocks are flushed with `filtered_lines.extend`, which this
transliterates as list append). -/
def filterDiverseAux (inSel : Bool) (cur : List Line) (used : List (List Char)) :
    List Line → List Line
  | [] =>
    -- final flush (l.845-877)
    if cur.isEmpty then []
    else
      match blockKey cur with
      | none => cur
      | some k => if k ∈ used then [] else cur
  | l :: rest =>
    match lineStep inSel l with
    | .dog =>
      if cur.isEmpty then filterDiverseAux true [l] used rest
      else
        match blockKey cur with
        | none => cur ++ filterDiverseAux true [l] used rest
        | some k =>
          if k ∈ used then filterDiverseAux true [l] used rest
          else cur ++ filterDiverseAux true [l] (k :: used) rest
    | .header => l :: filterDiverseAux false cur used rest
    | .descr => filterDiverseAux inSel (cur ++ [l]) used rest
    | .passthrough => l :: filterDiverseAux inSel cur used rest
    | .blankInSel => filterDiverseAux inSel (cur ++ [l]) used rest
    | .dropped => filterDiverseAux inSel cur used rest

/-- `filter_diverse_selections` on the line list. -/
def filterDiverseLines (ls : List Line) : List Line :=
  filterDiverseAux false [] [] ls

/-- `filter_diverse_selections(response_text)`. -/
def filter_diverse_selections (s : String) : String :=
  String.mk (intercalateL ['\n'] (filterDiverseLines (splitNL s.toList)))

/-! Reference segmentation: the ordered list of selection blocks exactly as
the loop collects them into `current_selection`, independent of the
keep/drop bookkeeping. -/

/-- The selection blocks of the input, in flush order. -/
def selectionBlocksAux (inSel : Bool) (cur : List Line) : List Line → List (List Line)
  | [] => if cur.isEmpty then [] else [cur]
  | l :: rest =>
    match lineStep inSel l with
    | .dog =>
      if cur.isEmpty then selectionBlocksAux true [l] rest
      else cur :: selectionBlocksAux true [l] rest
    | .header => selectionBlocksAux false cur rest
    | .descr => selectionBlocksAux inSel (cur ++ [l]) rest
    | .passthrough => selectionBlocksAux inSel cur rest
    | .blankInSel => selectionBlocksAux inSel (cur ++ [l]) rest
    | .dropped => selectionBlocksAux inSel cur rest

/-- The selection blocks of an input text's lines. -/
def selectionBlocks (ls : List Line) : List (List Line) :=
  selectionBlocksAux false [] ls

/-- The claim-side keep policy: keep a block when its key is unextractable
(fail open) or not seen before; record extractable keys, first match wins. -/
def keepFirstPerRace (used : List (List Char)) : List (List Line) → List (List Line)
  | [] => []
  | b :: bs =>
    match blockKey b with
    | none => b :: keepFirstPerRace used bs
    | some k =>
      if k ∈ used then keepFirstPerRace used bs
      else b :: keepFirstPerRace (k :: used) bs

/-- Synthetic response used to instantiate the diversification-filter
claims: three selection blocks, the first two sharing the extractable key
`alpha_1`, the third holding the distinct key `beta_2`. -/
def diverseSample : List Line :=
  ["header".toList,
   "🐕 **A** | Race 1 | Alpha".toList,
   "📦 **Box:** 3".toList,
   "🐕 **B** | Race 1 | Alpha".toList,
   "📦 **Box:** 5".toList,
   "🐕 **C** | Race 2 | Beta".toList,
   "📦 **Box:** 1".toList]

/-- Input refuting idempotence of the filter: a section header interrupts
the pending second block, so the second pass moves that block (and the
first pass's reordering repeats one level deeper). -/
def reorderSample : String :=
  "🐕 A | Race 1 | Alpha\n🐕 B | Race 2 | Beta\n**SOLID SELECTIONS (1.0 Units)**\nnote\n🐕 C | Race 3 | Gamma"

/-- Shape of a selection block as the loop collects it: a dog-marker line
followed by description/blank lines only (no dog markers, no headers). -/
def GoodBlock (b : List Line) : Prop :=
  ∃ h t, b = h :: t ∧ isDogLine h = true ∧
    ∀ l ∈ t, startsWithL (pyStripL l) "🐕".toList = false ∧ isSectionHeaderLine l = false

/-- A small header-free sample for the C4 witness. -/
def idemSample : List Line :=
  ["intro".toList,
   "🐕 **A** | Race 4 | Gawler".toList,
   "📦 **Box:** 2".toList,
   "🐕 **B** | Race 4 | Gawler".toList,
   "🐕 **C** | Race 9 | Mandurah".toList]

/-! ### `validate_and_fix_selections` (Greyhound.py l.704-766)

The source function has two sequential phases: a stake-label normalizer
(the first `for` loop building `fixed_lines`) and an insertion of a
"no premium selections" notice when the premium section is empty. -/

/-- The three stake tiers. -/
inductive StakeTier where
  | premium
  | solid
  | speculative
deriving DecidableEq, Repr

/-- The tier whose section-header substring occurs in the line, with the
source's `if`/`elif` priority (premium checked first). -/
def tierHeaderOf (l : Line) : Option StakeTier :=
  if containsL l "PREMIUM SELECTIONS (1.5 Units)".toList then some .premium
  else if containsL l "SOLID SELECTIONS (1.0 Units)".toList then some .solid
  else if containsL l "SPECULATIVE PLAYS (0.5 Units)".toList then some .speculative
  else none

/-- `line.strip().startswith('💰 **Stake:**')`. -/
def isStakeLine (l : Line) : Bool :=
  startsWithL (pyStripL l) "💰 **Stake:**".toList

/-- The canonical stake line written for each tier. -/
def canonicalStake : StakeTier → Line
  | .premium => "💰 **Stake:** 1.5 Units | **Bet Type:** Win".toList
  | .solid => "💰 **Stake:** 1.0 Units | **Bet Type:** Win".toList
  | .speculative => "💰 **Stake:** 0.5 Units | **Bet Type:** Each-Way".toList

/-- The stake-label normalizer loop; `sect` is `current_section`. -/
def fixStakeAux (sect : Option StakeTier) : List Line → List Line
  | [] => []
  | l :: rest =>
    match tierHeaderOf l with
    | some t => l :: fixStakeAux (some t) rest
    | none =>
      if isStakeLine l then
        (match sect with
         | some t => canonicalStake t
         | none => l) :: fixStakeAux sect rest
      else l :: fixStakeAux sect rest

/-- Phase 1 of `validate_and_fix_selections`: the `fixed_lines` list. -/
def fix_stake_lines (ls : List Line) : List Line :=
  fixStakeAux none ls

/-- `premium_header_idx` (first line containing the premium header). -/
def findPremiumIdx (ls : List Line) : Option Nat :=
  ls.findIdx? (fun l => containsL l "PREMIUM SELECTIONS (1.5 Units)".toList)

/-- The `has_actual_premium` scan over the lines after the header. -/
def hasActualPremium : List Line → Bool
  | [] => false
  | l :: rest =>
    let s := pyStripL l
    if startsWithL s "🐕".toList then true
    else if containsL s "SOLID SELECTIONS".toList ||
            containsL s "SPECULATIVE PLAYS".toList then false
    else if containsL s "❌ No premium selections".toList then true
    else hasActualPremium rest

/-- The inserted notice line. -/
def noPremiumMsg : Line :=
  "❌ No premium selections found today - all races lack strong confidence factors".toList

/-- Phase 2 of `validate_and_fix_selections`: insert the notice (between
two blank lines) right after an empty premium section header. -/
def insert_no_premium (ls : List Line) : List Line :=
  match findPremiumIdx ls with
  | none => ls
  | some idx =>
    if hasActualPremium (ls.drop (idx + 1)) then ls
    else ls.take (idx + 1) ++ [[], noPremiumMsg, []] ++ ls.drop (idx + 1)

/-- `validate_and_fix_selections(response_text)`. -/
def validate_and_fix_selections (s : String) : String :=
  String.mk (intercalateL ['\n']
    (insert_no_premium (fix_stake_lines (splitNL s.toList))))

/-- The claim-side notion of "most recently seen tier header" strictly
before position `i`. -/
def activeTierBefore (ls : List Line) (i : Nat) : Option StakeTier :=
  (ls.take i).foldl
    (fun acc l => match tierHeaderOf l with
                  | some t => some t
                  | none => acc) none

/-- Sample for the C5 witness: a stake line before any header, a premium
header, then a stake line with a wrong amount. -/
def stakeSample : List Line :=
  ["💰 **Stake:** 9.9 Units".toList,
   "**🏆 PREMIUM SELECTIONS (1.5 Units)**".toList,
   "🐕 **A** | Race 4 | Gawler".toList,
   "💰 **Stake:** 0.5 Units | **Bet Type:** Place".toList]

/-! ### The scheduler loop (Greyhound.py l.1400-1470, claim C6)

One poll of the minute loop, abstracted over the wall clock.  A `Poll`
carries the Sydney clock readings of that iteration and whether the fire
(tips generation plus delivery) completes without an exception; on success
the loop stores today's date in `last_noon_run` before the next poll. -/

/-- `scheduler_status` (the persisted JSON document). -/
structure SchedStatus where
  last_noon_run : Option String
  last_run_timestamp : Option String
deriving DecidableEq, Repr

/-- One wall-clock sample of the minute loop. -/
structure Poll where
  current_hour : Nat
  current_minute : Nat
  today_str : String
  current_timestamp : String
  fire_succeeds : Bool
deriving DecidableEq, Repr

/-- `is_noon_time = (current_hour == 12 and 0 <= current_minute <= 2)`. -/
def is_noon_time (p : Poll) : Prop :=
  p.current_hour = 12 ∧ 0 ≤ p.current_minute ∧ p.current_minute ≤ 2

instance (p : Poll) : Decidable (is_noon_time p) := by
  unfold is_noon_time
  infer_instance

/-- One iteration of the scheduler loop body: returns the new status and
whether the fire action executed this poll. -/
def scheduler_step (st : SchedStatus) (p : Poll) : SchedStatus × Bool :=
  if is_noon_time p ∧ st.last_noon_run ≠ some p.today_str then
    if p.fire_succeeds then
      (⟨some p.today_str, some p.current_timestamp⟩, true)
    else
      (st, true)
  else
    (st, false)

/-- Run the loop over a sequence of polls, counting fire executions. -/
def scheduler_run (st : SchedStatus) : List Poll → SchedStatus × Nat
  | [] => (st, 0)
  | p :: ps =>
    let (st', fired) := scheduler_step st p
    let (stFin, n) := scheduler_run st' ps
    (stFin, (if fired then 1 else 0) + n)

/-! ### `analyze_greyhound_racing_day_with_retry` (Greyhound.py l.419-504)

The inner call to `analyze_greyhound_racing_day` is the external boundary:
a stub maps the attempt number to either a returned string (`ok`) or a
raised exception's `str(e)` (`exn`).  A run is summarised by the returned
text, the number of `asyncio.sleep(retry_delay)` calls, and the number of
`send_fallback_webhook_message` calls.  The `for attempt in range(3)` loop
is transliterated with a fuel argument counting the remaining iterations
(`attempt + fuel = max_retries` at every call site); exhausting the fuel is
falling off the loop into the recovery-mode return. -/

/-- Outcome of one inner `analyze_greyhound_racing_day(...)` call. -/
inductive AttemptOutcome where
  | ok (s : String)
  | exn (e : String)

/-- Observable summary of one orchestrator run. -/
structure RetryTrace where
  result : String
  sleeps : Nat
  notifications : Nat
deriving DecidableEq, Repr

def max_retries : Nat := 3

def retry_delay : Nat := 120

/-- `"'NoneType' object is not iterable"` (the specially cased API error). -/
def nonetype_marker : String := "\x27NoneType\x27 object is not iterable"

/-- `tips_result and len(tips_result.strip()) > 100`. -/
def min_length_ok (s : String) : Prop :=
  s ≠ "" ∧ 100 < (pyStripL s.toList).length

instance (s : String) : Decidable (min_length_ok s) := by
  unfold min_length_ok
  infer_instance

/-- The canned fallback body returned after all attempts failed
(l.474-504); `fallback_date` stands for the formatted current Perth date. -/
def recovery_mode_text (fallback_date : String) : String :=
  "🐕 Greyhound Racing Analysis - " ++ fallback_date ++ "

⚠️ **System Recovery Mode**

After multiple attempts, the AI analysis system is temporarily unavailable.

📅 **Manual Racing Check Required:**
1. **TAB.com.au** → Greyhounds → Today\x27s Meetings
2. **TheDogs.com.au** → Race Cards section
3. **Racing.com** → Greyhound racing section

🏁 **Expected Venues for " ++ fallback_date ++ ":**
- **NSW**: Gosford, Bulli, Richmond
- **VIC**: Sandown, Healesville, Warragul  
- **QLD**: Albion Park, Ipswich, Townsville
- **SA**: Murray Bridge, Angle Park
- **WA**: Cannington, Mandurah

💡 **Racing Tips (General Guidelines):**
- Look for box 1-4 in small fields
- Avoid wide barriers in big fields
- Check for gear changes (especially blinkers)
- Consider track specialists over visitors

🔄 **System Status:** Automatic recovery in progress. Next analysis attempt in 30 minutes.

⚠️ **DISCLAIMER**: Always verify race information on official websites before betting."

/-- `f"⚠️ Technical error after {max_retries} attempts: {error_str}"`. -/
def technical_error_text (e : String) : String :=
  "⚠️ Technical error after " ++ toString max_retries ++ " attempts: " ++ e

/-- The retry loop body; `fuel` counts the remaining iterations of
`range(max_retries)`. -/
def retryAux (stub : Nat → AttemptOutcome) (d : String) :
    Nat → Nat → Nat → Nat → RetryTrace
  | _, 0, sleeps, notifs => ⟨recovery_mode_text d, sleeps, notifs⟩
  | attempt, fuel + 1, sleeps, notifs =>
    match stub attempt with
    | .ok s =>
      if min_length_ok s then ⟨s, sleeps, notifs⟩
      else if attempt = max_retries - 1 then ⟨recovery_mode_text d, sleeps, notifs⟩
      else retryAux stub d (attempt + 1) fuel sleeps notifs
    | .exn e =>
      if strContains e nonetype_marker then
        if attempt = max_retries - 1 then ⟨recovery_mode_text d, sleeps, notifs⟩
        else retryAux stub d (attempt + 1) fuel (sleeps + 1) notifs
      else if attempt = max_retries - 1 then
        ⟨technical_error_text e, sleeps, notifs + 1⟩
      else retryAux stub d (attempt + 1) fuel (sleeps + 1) notifs

/-- `analyze_greyhound_racing_day_with_retry` as a function of the inner
call's outcomes and the formatted fallback date. -/
def analyze_greyhound_racing_day_with_retry
    (stub : Nat → AttemptOutcome) (d : String) : RetryTrace :=
  retryAux stub d 0 max_retries 0 0

/-- A valid (longer than 100 characters after stripping) stub result. -/
def longTip : String := String.mk (List.replicate 120 'A')

/-! ### `call_gemini_fallback` response processing (Greyhound.py l.235-259,
claim C7)

The SDK response object is modelled structurally: a part carries an
optional `text` and a `thought` flag; the processing loop appends
`part.text` for every part whose text attribute is present and truthy. -/

/-- One `Part` of the SDK response. -/
structure GPart where
  text : Option String
  thought : Bool
deriving DecidableEq, Repr

/-- `candidate.content`. -/
structure GContent where
  parts : List GPart
deriving DecidableEq, Repr

/-- One candidate. -/
structure GCandidate where
  content : Option GContent
deriving DecidableEq, Repr

/-- The SDK response. -/
structure GResponse where
  candidates : List GCandidate
deriving DecidableEq, Repr

/-- The `final_answer` accumulation of `call_gemini_fallback`:
`if hasattr(part, 'text') and part.text: final_answer += part.text`. -/
def call_gemini_fallback_extract : Option GResponse → String
  | none => ""
  | some r =>
    match r.candidates with
    | [] => ""
    | c :: _ =>
      match c.content with
      | none => ""
      | some ct =>
        ct.parts.foldl
          (fun acc p =>
            match p.text with
            | some t => if t ≠ "" then acc ++ t else acc
            | none => acc) ""

/-- The text contributed by a list of parts, in order: every present,
non-empty `text` field — the `thought` flag plays no role. -/
def collectTexts : List GPart → String
  | [] => ""
  | p :: ps =>
    (match p.text with
     | some t => if t ≠ "" then t else ""
     | none => "") ++ collectTexts ps

/-- A response whose first candidate carries a thought-flagged part. -/
def thoughtResponse : GResponse :=
  ⟨[⟨some ⟨[⟨some "THOUGHT: lean towards box one. ", true⟩,
            ⟨some "final tips text", false⟩]⟩⟩]⟩

/-! ### `get_effective_date` (Greyhound.py l.142-163, claim C8)

`datetime.strptime(OVERRIDE_DATE, '%Y-%m-%d')` is modelled after CPython's
`_strptime` regexes — `%Y` is exactly four digits, `%m` is
`1[0-2]|0[1-9]|[1-9]`, `%d` is `3[01]|[12]\d|0[1-9]|[1-9]` (alternatives in
that order, full input consumed) — followed by the `datetime` constructor's
calendar validation, whose failure is the `ValueError` the source catches. -/

def digitVal (c : Char) : Nat := c.toNat - '0'.toNat

/-- `%Y`: exactly four digits. -/
def matchYear : List Char → Option (Nat × List Char)
  | a :: b :: c :: d :: rest =>
    if a.isDigit && b.isDigit && c.isDigit && d.isDigit then
      some (((digitVal a * 10 + digitVal b) * 10 + digitVal c) * 10 + digitVal d, rest)
    else none
  | _ => none

/-- `%m` = `1[0-2]|0[1-9]|[1-9]`, with regex alternative order and
backtracking into the continuation. -/
def matchMonth (k : Nat → List Char → Option α) (s : List Char) : Option α :=
  (match s with
   | '1' :: c :: t => if '0' ≤ c ∧ c ≤ '2' then k (10 + digitVal c) t else none
   | _ => none) <|>
  (match s with
   | '0' :: c :: t => if '1' ≤ c ∧ c ≤ '9' then k (digitVal c) t else none
   | _ => none) <|>
  (match s with
   | c :: t => if '1' ≤ c ∧ c ≤ '9' then k (digitVal c) t else none
   | _ => none)

/-- `%d` = `3[01]|[12]\d|0[1-9]|[1-9]`. -/
def matchDay (k : Nat → List Char → Option α) (s : List Char) : Option α :=
  (match s with
   | '3' :: c :: t => if c = '0' ∨ c = '1' then k (30 + digitVal c) t else none
   | _ => none) <|>
  (match s with
   | a :: c :: t =>
     if (a = '1' ∨ a = '2') ∧ c.isDigit then k (digitVal a * 10 + digitVal c) t
     else none
   | _ => none) <|>
  (match s with
   | '0' :: c :: t => if '1' ≤ c ∧ c ≤ '9' then k (digitVal c) t else none
   | _ => none) <|>
  (match s with
   | c :: t => if '1' ≤ c ∧ c ≤ '9' then k (digitVal c) t else none
   | _ => none)

def is_leap_year (y : Nat) : Bool :=
  (y % 4 = 0 && y % 100 ≠ 0) || y % 400 = 0

def days_in_month (y m : Nat) : Nat :=
  if m = 2 then (if is_leap_year y then 29 else 28)
  else if m = 4 ∨ m = 6 ∨ m = 9 ∨ m = 11 then 30
  else 31

/-- `datetime.strptime(s, '%Y-%m-%d')`: `none` is the `ValueError` path
(pattern failure, unconverted trailing data, or calendar invalidity such as
a day out of range for the month or year zero). -/
def strptime_Ymd (s : String) : Option (Nat × Nat × Nat) :=
  (matchYear s.toList).bind fun yr =>
    match yr.2 with
    | '-' :: r2 =>
      matchMonth (fun m r3 =>
        match r3 with
        | '-' :: r4 =>
          matchDay (fun dd r5 =>
            if r5 = [] then
              if 1 ≤ yr.1 ∧ dd ≤ days_in_month yr.1 m then some (yr.1, m, dd)
              else none
            else none) r4
        | _ => none) r2
    | _ => none

/-- Result of `get_effective_date`: either noon Perth on the parsed
override date, or the live `datetime.now(AEST)` instant (rendered in Perth
time by the source — the same instant either way). -/
inductive EffectiveDate where
  | overridden (date : Nat × Nat × Nat)
  | live (now : Nat × Nat × Nat)
deriving DecidableEq, Repr

/-- `get_effective_date`, abstracted over the `OVERRIDE_DATE` environment
value and the current Australian-Eastern date. -/
def get_effective_date : Option String → (Nat × Nat × Nat) → EffectiveDate
  | some od, australian_now =>
    if od ≠ "" then
      match strptime_Ymd od with
      | some ymd => .overridden ymd
      | none => .live australian_now
    else .live australian_now
  | none, australian_now => .live australian_now

/-! ### `call_gemini_with_search_grounding` (Greyhound.py l.179-233,
claim C10)

The HTTP layer is the external boundary: the call either raises (network
error, timeout) or yields a status code with a parsed JSON body.  Each
`Option` below models the presence of the corresponding JSON key, matching
the source's `"candidates" in result`-style membership tests. -/

/-- One entry of `candidates[0].content.parts`. -/
structure RPart where
  text : Option String
deriving DecidableEq, Repr

/-- `candidate["content"]`; `parts = none` models a missing `parts` key. -/
structure RContent where
  parts : Option (List RPart)
deriving DecidableEq, Repr

/-- One candidate; `content = none` models a missing `content` key. -/
structure RCandidate where
  content : Option RContent
deriving DecidableEq, Repr

/-- The parsed response body. -/
structure RBody where
  candidates : Option (List RCandidate)
deriving DecidableEq, Repr

/-- Outcome of the HTTP POST. -/
inductive HTTPResult where
  | exn (e : String)
  | resp (status : Nat) (body : RBody)

/-- The fixed non-`None` sentinel of the 200-but-unusable path. -/
def grounding_sentinel : String :=
  "No valid response received from search grounding API"

/-- `call_gemini_with_search_grounding`, as a function of the HTTP
outcome: `none` is the `return None` of the non-200 and exception paths. -/
def call_gemini_with_search_grounding : HTTPResult → Option String
  | .exn _ => none
  | .resp status body =>
    if status = 200 then
      some (match body.candidates with
        | some (c :: _) =>
          (match c.content with
           | some ct =>
             (match ct.parts with
              | some ps => String.intercalate "\n" (ps.filterMap fun p => p.text)
              | none => grounding_sentinel)
           | none => grounding_sentinel)
        | _ => grounding_sentinel)
    else none

/-- The downstream acceptance check of `analyze_greyhound_racing_day`
(l.1013): `if response and len(response.strip()) > 100`. -/
def grounding_response_accepted : Option String → Bool
  | some s => decide (min_length_ok s)
  | none => false

/-! ### Correspondence lemmas for the diversification filter -/

/-- Any line not classified `.dog` fails the dog-line guard. -/
theorem isDogLine_false_of_step {inSel : Bool} {l : Line} {c : LineStep}
    (hc : lineStep inSel l = c) (hne : c ≠ .dog) : isDogLine l = false := by
  by_cases hd : isDogLine l
  · rw [lineStep, if_pos hd] at hc
    exact absurd hc.symm hne
  · simpa using hd

theorem infix_of_cons {α' : Type} {xs ys : List α'} (a : α') (h : xs <:+: ys) :
    xs <:+: a :: ys := by
  obtain ⟨s, t, rfl⟩ := h
  exact ⟨a :: s, t, rfl⟩

theorem infix_of_append {α' : Type} {xs ys : List α'} (zs : List α') (h : xs <:+: ys) :
    xs <:+: zs ++ ys := by
  obtain ⟨s, t, rfl⟩ := h
  exact ⟨zs ++ s, t, by simp⟩

theorem infix_append_self {α' : Type} {cur ys : List α'} : cur <:+: cur ++ ys :=
  ⟨[], ys, by simp⟩

/-- The dog-marker lines that survive the filter are exactly the dog-marker
lines of the blocks kept by the first-key-wins policy, in order. -/
theorem filterDiverseAux_dog_lines (ls : List Line) :
    ∀ (inSel : Bool) (cur : List Line) (used : List (List Char)),
      (filterDiverseAux inSel cur used ls).filter isDogLine
        = ((keepFirstPerRace used (selectionBlocksAux inSel cur ls)).map
            (List.filter isDogLine)).flatten := by
  induction ls with
  | nil =>
    intro inSel cur used
    simp only [filterDiverseAux, selectionBlocksAux]
    by_cases hc : cur.isEmpty
    · simp [hc, keepFirstPerRace]
    · simp only [hc, Bool.false_eq_true, if_false]
      cases hk : blockKey cur with
      | none => simp [keepFirstPerRace, hk]
      | some k =>
        by_cases hm : k ∈ used
        · simp [keepFirstPerRace, hk, hm]
        · simp [keepFirstPerRace, hk, hm]
  | cons l rest ih =>
    intro inSel cur used
    simp only [filterDiverseAux, selectionBlocksAux]
    cases hs : lineStep inSel l with
    | dog =>
      by_cases hc : cur.isEmpty
      · simp [hc, ih]
      · simp only [hc, Bool.false_eq_true, if_false]
        cases hk : blockKey cur with
        | none => simp [keepFirstPerRace, hk, ih, List.filter_append]
        | some k =>
          by_cases hm : k ∈ used
          · simp [keepFirstPerRace, hk, hm, ih]
          · simp [keepFirstPerRace, hk, hm, ih, List.filter_append]
    | header =>
      have hd := isDogLine_false_of_step hs (by simp)
      simp [hd, ih]
    | descr => simp [ih]
    | passthrough =>
      have hd := isDogLine_false_of_step hs (by simp)
      simp [hd, ih]
    | blankInSel => simp [ih]
    | dropped => simp [ih]

/-- Every block kept by the first-key-wins policy survives the filter as a
contiguous run of output lines. -/
theorem filterDiverseAux_keeps_blocks (ls : List Line) :
    ∀ (inSel : Bool) (cur : List Line) (used : List (List Char)) (b : List Line),
      b ∈ keepFirstPerRace used (selectionBlocksAux inSel cur ls) →
      b <:+: filterDiverseAux inSel cur used ls := by
  induction ls with
  | nil =>
    intro inSel cur used b hb
    simp only [filterDiverseAux, selectionBlocksAux] at hb ⊢
    by_cases hc : cur.isEmpty
    · simp [hc, keepFirstPerRace] at hb
    · simp only [hc, Bool.false_eq_true, if_false] at hb ⊢
      cases hk : blockKey cur with
      | none =>
        simp only [keepFirstPerRace, hk, List.mem_singleton] at hb
        simp only [hk]
        exact hb ▸ ⟨[], [], by simp⟩
      | some k =>
        by_cases hm : k ∈ used
        · simp [keepFirstPerRace, hk, hm] at hb
        · simp only [keepFirstPerRace, hk, hm, Bool.false_eq_true, if_false,
            List.mem_singleton] at hb
          simp only [hk, hm, if_false]
          exact hb ▸ ⟨[], [], by simp⟩
  | cons l rest ih =>
    intro inSel cur used b hb
    simp only [filterDiverseAux, selectionBlocksAux] at hb ⊢
    cases hs : lineStep inSel l with
    | dog =>
      rw [hs] at hb
      by_cases hc : cur.isEmpty
      · simp only [hc, if_true] at hb ⊢
        exact ih true [l] used b hb
      · simp only [hc, Bool.false_eq_true, if_false] at hb ⊢
        simp only [keepFirstPerRace] at hb
        cases hk : blockKey cur with
        | none =>
          simp only [hk, List.mem_cons] at hb ⊢
          rcases hb with rfl | hb
          · exact infix_append_self
          · exact infix_of_append cur (ih true [l] used b hb)
        | some k =>
          by_cases hm : k ∈ used
          · simp only [hk, hm, if_true] at hb ⊢
            exact ih true [l] used b hb
          · simp only [hk, hm, Bool.false_eq_true, if_false, List.mem_cons] at hb ⊢
            rcases hb with rfl | hb
            · exact infix_append_self
            · exact infix_of_append cur (ih true [l] (k :: used) b hb)
    | header =>
      rw [hs] at hb
      exact infix_of_cons l (ih false cur used b hb)
    | descr =>
      rw [hs] at hb
      exact ih inSel (cur ++ [l]) used b hb
    | passthrough =>
      rw [hs] at hb
      exact infix_of_cons l (ih inSel cur used b hb)
    | blankInSel =>
      rw [hs] at hb
      exact ih inSel (cur ++ [l]) used b hb
    | dropped =>
      rw [hs] at hb
      exact ih inSel cur used b hb

/-- Claim C3: `filter_diverse_selections` keeps exactly the first selection
block for each extractable (track, race-number) key, drops every later
block whose key was already seen, and keeps blocks with unextractable keys
unconditionally: the dog-marker lines of the output are exactly those of
the blocks kept by the first-key-wins policy, in order, and every kept
block survives as a contiguous run of output lines. -/
theorem claim_C3_diversification_first_wins (ls : List Line) :
    ((filterDiverseLines ls).filter isDogLine
      = ((keepFirstPerRace [] (selectionBlocks ls)).map (List.filter isDogLine)).flatten)
    ∧ ∀ b ∈ keepFirstPerRace [] (selectionBlocks ls), b <:+: filterDiverseLines ls :=
  ⟨filterDiverseAux_dog_lines ls false [] [],
   fun b hb => filterDiverseAux_keeps_blocks ls false [] [] b hb⟩

/-- Witness for C3 at a concrete input: the first `alpha_1` block is kept
and survives contiguously; the duplicate is gone from the dog lines. -/
theorem claim_C3_witness :
    (["🐕 **A** | Race 1 | Alpha".toList, "📦 **Box:** 3".toList] ∈
        keepFirstPerRace [] (selectionBlocks diverseSample))
    ∧ ["🐕 **A** | Race 1 | Alpha".toList, "📦 **Box:** 3".toList] <:+:
        filterDiverseLines diverseSample :=
  ⟨by decide,
   (claim_C3_diversification_first_wins diverseSample).2
     ["🐕 **A** | Race 1 | Alpha".toList, "📦 **Box:** 3".toList] (by decide)⟩

/-- Counterexample to claim C4: applying `filter_diverse_selections` to its
own output changes the text (the pending block `🐕 A …` is moved after the
section header on the second pass). -/
theorem claim_C4_counterexample :
    filter_diverse_selections (filter_diverse_selections reorderSample) ≠
      filter_diverse_selections reorderSample := by
  decide

/-! ### Structure of the filter on header-free input (for claim C4) -/

theorem startsWith_cons {a : Char} {p s : List Char}
    (h : startsWithL s (a :: p) = true) :
    ∃ t, s = a :: t ∧ startsWithL t p = true := by
  cases s with
  | nil => simp [startsWithL, List.isPrefixOf] at h
  | cons b t =>
    simp only [startsWithL, List.isPrefixOf, Bool.and_eq_true, beq_iff_eq] at h
    exact ⟨t, by rw [h.1], h.2⟩

theorem startsWith_head {a : Char} {p s : List Char}
    (h : startsWithL s (a :: p) = true) : startsWithL s [a] = true := by
  obtain ⟨t, rfl, _⟩ := startsWith_cons h
  simp [startsWithL, List.isPrefixOf]

/-- A dog-marker line's stripped text starts with the dog emoji. -/
theorem dog_starts_emoji {l : Line} (h : isDogLine l = true) :
    startsWithL (pyStripL l) "🐕".toList = true := by
  simp only [isDogLine, Bool.or_eq_true, Bool.and_eq_true] at h
  rcases h with ⟨h1, _⟩ | ⟨h1, _⟩
  · exact startsWith_head (p := " **".toList) h1
  · exact h1

theorem not_dog_of_not_emoji {l : Line}
    (h : startsWithL (pyStripL l) "🐕".toList = false) : isDogLine l = false := by
  by_cases hd : isDogLine l
  · rw [dog_starts_emoji hd] at h; cases h
  · simpa using hd

/-- Dog-marker lines are never section headers (their stripped text starts
with the dog emoji, not with an asterisk). -/
theorem dog_not_header {l : Line} (h : isDogLine l = true) :
    isSectionHeaderLine l = false := by
  by_cases hh : isSectionHeaderLine l
  · exfalso
    have e1 : "🐕".toList = ['🐕'] := rfl
    have h1 := dog_starts_emoji h
    rw [e1] at h1
    obtain ⟨t, ht, _⟩ := startsWith_cons h1
    simp only [isSectionHeaderLine, Bool.and_eq_true] at hh
    have e2 : "**".toList = ['*', '*'] := rfl
    have h2 := hh.1
    rw [e2] at h2
    obtain ⟨t', ht', _⟩ := startsWith_cons h2
    rw [ht] at ht'
    simp at ht'
  · simpa using hh

theorem lineStep_of_dog {inSel : Bool} {l : Line} (h : isDogLine l = true) :
    lineStep inSel l = .dog := by
  simp [lineStep, h]

theorem isDog_of_step_dog {inSel : Bool} {l : Line}
    (h : lineStep inSel l = .dog) : isDogLine l = true := by
  unfold lineStep at h
  split_ifs at h with h1 h2 h3 h4 h5
  exact h1

theorem header_of_step_header {inSel : Bool} {l : Line}
    (h : lineStep inSel l = .header) : isSectionHeaderLine l = true := by
  unfold lineStep at h
  split_ifs at h with h1 h2 h3 h4 h5
  exact (Bool.and_eq_true _ _ |>.mp h2).2

/-- On `in_selection = False` every line is either a new dog marker or a
passthrough to `filtered_lines`. -/
theorem lineStep_false_eq (l : Line) :
    lineStep false l = if isDogLine l then .dog else .passthrough := by
  by_cases hd : isDogLine l <;> simp [lineStep, hd]

theorem lineStep_true_ne_passthrough (l : Line) :
    lineStep true l ≠ .passthrough := by
  intro h
  unfold lineStep at h
  split_ifs at h <;> simp_all

/-- Lines that are neither dog markers nor section headers continue the
current selection when `in_selection` holds. -/
theorem lineStep_true_cont {l : Line}
    (h1 : startsWithL (pyStripL l) "🐕".toList = false)
    (h2 : isSectionHeaderLine l = false) :
    lineStep true l = .descr ∨ lineStep true l = .blankInSel := by
  have hd := not_dog_of_not_emoji h1
  have h1' : startsWithL (pyStripL l) ['🐕'] = false := h1
  by_cases hbl : (pyStripL l).isEmpty
  · right
    simp [lineStep, hd, h2, isDescLine, isBlankLine, hbl]
  · left
    simp [lineStep, hd, h2, isDescLine, isBlankLine, hbl, h1']

theorem goodBlock_single {l : Line} (h : isDogLine l = true) : GoodBlock [l] :=
  ⟨l, [], rfl, h, by simp⟩

theorem goodBlock_snoc {b : List Line} {l : Line} (hb : GoodBlock b)
    (h1 : startsWithL (pyStripL l) "🐕".toList = false)
    (h2 : isSectionHeaderLine l = false) : GoodBlock (b ++ [l]) := by
  obtain ⟨hd, t, rfl, hdog, ht⟩ := hb
  refine ⟨hd, t ++ [l], by simp, hdog, ?_⟩
  intro x hx
  rcases List.mem_append.1 hx with hx | hx
  · exact ht x hx
  · rw [List.mem_singleton.1 hx]
    exact ⟨h1, h2⟩

theorem step_descr_cont {inSel : Bool} {l : Line}
    (h : lineStep inSel l = .descr) :
    startsWithL (pyStripL l) "🐕".toList = false ∧ isSectionHeaderLine l = false := by
  unfold lineStep at h
  split_ifs at h with h1 h2 h3 h4 h5
  have h3' := (Bool.and_eq_true _ _ |>.mp h3)
  have hdesc := h3'.2
  simp only [isDescLine, Bool.and_eq_true, Bool.not_eq_true'] at hdesc
  refine ⟨hdesc.2, ?_⟩
  have hin : inSel = true := h3'.1
  rw [hin] at h2
  simpa using h2

theorem step_blank_cont {inSel : Bool} {l : Line}
    (h : lineStep inSel l = .blankInSel) :
    startsWithL (pyStripL l) "🐕".toList = false ∧ isSectionHeaderLine l = false := by
  unfold lineStep at h
  split_ifs at h with h1 h2 h3 h4 h5
  constructor
  · have hbl : (pyStripL l).isEmpty = true := h5
    rw [List.isEmpty_iff.1 hbl]
    rfl
  · have hin : (!inSel) = false := by simpa using h4
    have hin' : inSel = true := by simpa using hin
    rw [hin'] at h2
    simpa using h2

theorem step_descr_inSel {inSel : Bool} {l : Line}
    (h : lineStep inSel l = .descr) : inSel = true := by
  unfold lineStep at h
  split_ifs at h with h1 h2 h3 h4 h5
  exact (Bool.and_eq_true _ _ |>.mp h3).1

theorem step_header_inSel {inSel : Bool} {l : Line}
    (h : lineStep inSel l = .header) : inSel = true := by
  unfold lineStep at h
  split_ifs at h with h1 h2 h3 h4 h5
  exact (Bool.and_eq_true _ _ |>.mp h2).1

theorem step_blank_inSel {inSel : Bool} {l : Line}
    (h : lineStep inSel l = .blankInSel) : inSel = true := by
  unfold lineStep at h
  split_ifs at h with h1 h2 h3 h4 h5
  have hin : (!inSel) = false := by simpa using h4
  simpa using hin

theorem step_dropped_inSel {inSel : Bool} {l : Line}
    (h : lineStep inSel l = .dropped) : inSel = true := by
  unfold lineStep at h
  split_ifs at h with h1 h2 h3 h4 h5
  have hin : (!inSel) = false := by simpa using h4
  simpa using hin

/-- Every block produced by the segmentation is well shaped. -/
theorem selectionBlocksAux_good (ls : List Line) :
    ∀ (inSel : Bool) (cur : List Line),
      ((cur = [] ∧ inSel = false) ∨ GoodBlock cur) →
      ∀ b ∈ selectionBlocksAux inSel cur ls, GoodBlock b := by
  induction ls with
  | nil =>
    intro inSel cur hcur b hb
    simp only [selectionBlocksAux] at hb
    rcases hcur with ⟨rfl, _⟩ | hg
    · simp at hb
    · obtain ⟨hd, t, rfl, _, _⟩ := hg
      simp only [List.isEmpty_cons, Bool.false_eq_true, if_false,
        List.mem_singleton] at hb
      exact hb ▸ ⟨hd, t, rfl, by assumption, by assumption⟩
  | cons l rest ih =>
    intro inSel cur hcur b hb
    simp only [selectionBlocksAux] at hb
    cases hs : lineStep inSel l with
    | dog =>
      rw [hs] at hb
      have hgood : GoodBlock [l] := goodBlock_single (isDog_of_step_dog hs)
      by_cases hc : cur.isEmpty
      · rw [if_pos hc] at hb
        exact ih true [l] (Or.inr hgood) b hb
      · rw [if_neg hc] at hb
        rcases List.mem_cons.1 hb with rfl | hb
        · rcases hcur with ⟨rfl, _⟩ | hg
          · simp at hc
          · exact hg
        · exact ih true [l] (Or.inr hgood) b hb
    | header =>
      rw [hs] at hb
      have hin := step_header_inSel hs
      rcases hcur with ⟨_, hf⟩ | hg
      · rw [hin] at hf; cases hf
      · exact ih false cur (Or.inr hg) b hb
    | descr =>
      rw [hs] at hb
      have hin := step_descr_inSel hs
      rcases hcur with ⟨_, hf⟩ | hg
      · rw [hin] at hf; cases hf
      · have ⟨h1, h2⟩ := step_descr_cont hs
        exact ih inSel (cur ++ [l]) (Or.inr (goodBlock_snoc hg h1 h2)) b hb
    | passthrough =>
      rw [hs] at hb
      exact ih inSel cur hcur b hb
    | blankInSel =>
      rw [hs] at hb
      have hin := step_blank_inSel hs
      rcases hcur with ⟨_, hf⟩ | hg
      · rw [hin] at hf; cases hf
      · have ⟨h1, h2⟩ := step_blank_cont hs
        exact ih inSel (cur ++ [l]) (Or.inr (goodBlock_snoc hg h1 h2)) b hb
    | dropped =>
      rw [hs] at hb
      exact ih inSel cur hcur b hb

/-- Kept blocks are among the segmented blocks. -/
theorem keepFirstPerRace_subset :
    ∀ (bs : List (List Line)) (used : List (List Char)) (b : List Line),
      b ∈ keepFirstPerRace used bs → b ∈ bs := by
  intro bs
  induction bs with
  | nil => intro used b hb; simpa [keepFirstPerRace] using hb
  | cons x bs ih =>
    intro used b hb
    simp only [keepFirstPerRace] at hb
    cases hk : blockKey x with
    | none =>
      simp only [hk, List.mem_cons] at hb
      rcases hb with rfl | hb
      · exact List.mem_cons_self _ _
      · exact List.mem_cons_of_mem _ (ih used b hb)
    | some k =>
      simp only [hk] at hb
      by_cases hm : k ∈ used
      · rw [if_pos hm] at hb
        exact List.mem_cons_of_mem _ (ih used b hb)
      · rw [if_neg hm] at hb
        rcases List.mem_cons.1 hb with rfl | hb
        · exact List.mem_cons_self _ _
        · exact List.mem_cons_of_mem _ (ih (k :: used) b hb)

/-- A second pass of the keep policy with the same seen-set drops nothing. -/
theorem keepFirstPerRace_idem :
    ∀ (bs : List (List Line)) (used : List (List Char)),
      keepFirstPerRace used (keepFirstPerRace used bs) = keepFirstPerRace used bs := by
  intro bs
  induction bs with
  | nil => intro used; simp [keepFirstPerRace]
  | cons x bs ih =>
    intro used
    simp only [keepFirstPerRace]
    cases hk : blockKey x with
    | none => simp [keepFirstPerRace, hk, ih]
    | some k =>
      by_cases hm : k ∈ used
      · simp [hm, ih]
      · simp [keepFirstPerRace, hk, hm, ih]

theorem mem_of_mem_takeWhile {α' : Type} {p : α' → Bool} :
    ∀ {ls : List α'} {a : α'}, a ∈ ls.takeWhile p → a ∈ ls := by
  intro ls
  induction ls with
  | nil => intro a h; simpa using h
  | cons x t ih =>
    intro a h
    rw [List.takeWhile_cons] at h
    by_cases hp : p x
    · rw [if_pos hp] at h
      rcases List.mem_cons.1 h with rfl | h
      · exact List.mem_cons_self _ _
      · exact List.mem_cons_of_mem _ (ih h)
    · rw [if_neg hp] at h; cases h

theorem pred_of_mem_takeWhile {α' : Type} {p : α' → Bool} :
    ∀ {ls : List α'} {a : α'}, a ∈ ls.takeWhile p → p a = true := by
  intro ls
  induction ls with
  | nil => intro a h; simpa using h
  | cons x t ih =>
    intro a h
    rw [List.takeWhile_cons] at h
    by_cases hp : p x
    · rw [if_pos hp] at h
      rcases List.mem_cons.1 h with rfl | h
      · exact hp
      · exact ih h
    · rw [if_neg hp] at h; cases h

theorem takeWhile_append_all {α' : Type} {p : α' → Bool} :
    ∀ {xs : List α'} (ys : List α'), (∀ x ∈ xs, p x = true) →
      (xs ++ ys).takeWhile p = xs ++ ys.takeWhile p := by
  intro xs
  induction xs with
  | nil => intro ys _; simp
  | cons x t ih =>
    intro ys hall
    have hx := hall x (List.mem_cons_self _ _)
    simp only [List.cons_append, List.takeWhile_cons, hx, if_true]
    rw [ih ys (fun a ha => hall a (List.mem_cons_of_mem _ ha))]

/-- Segmentation skips a dog-free prefix while out of selection mode. -/
theorem selectionBlocksAux_skip_nondog :
    ∀ (pre ys : List Line), (∀ l ∈ pre, isDogLine l = false) →
      selectionBlocksAux false [] (pre ++ ys) = selectionBlocksAux false [] ys := by
  intro pre
  induction pre with
  | nil => intro ys _; rfl
  | cons l t ih =>
    intro ys hall
    have hl := hall l (List.mem_cons_self _ _)
    have hs : lineStep false l = .passthrough := by
      rw [lineStep_false_eq, hl]; rfl
    simp only [List.cons_append, selectionBlocksAux, hs]
    exact ih ys (fun a ha => hall a (List.mem_cons_of_mem _ ha))

/-- Continuation lines are absorbed into the pending block. -/
theorem selectionBlocksAux_absorb :
    ∀ (t : List Line),
      (∀ l ∈ t, startsWithL (pyStripL l) "🐕".toList = false ∧
        isSectionHeaderLine l = false) →
      ∀ (cur : List Line) (ys : List Line),
        selectionBlocksAux true cur (t ++ ys) = selectionBlocksAux true (cur ++ t) ys := by
  intro t
  induction t with
  | nil => intro _ cur ys; simp
  | cons l t' ih =>
    intro hall cur ys
    have ⟨h1, h2⟩ := hall l (List.mem_cons_self _ _)
    have hrest := fun a ha => hall a (List.mem_cons_of_mem _ ha)
    rcases lineStep_true_cont h1 h2 with hs | hs <;>
    · have e1 : selectionBlocksAux true cur ((l :: t') ++ ys)
          = selectionBlocksAux true (cur ++ [l]) (t' ++ ys) := by
        show selectionBlocksAux true cur (l :: (t' ++ ys)) = _
        simp only [selectionBlocksAux, hs]
      rw [e1, ih hrest (cur ++ [l]) ys]
      simp

/-- Segmenting a flattened list of well-shaped blocks returns the blocks. -/
theorem selectionBlocksAux_flatten :
    ∀ (bs : List (List Line)) (cur : List Line), GoodBlock cur →
      (∀ b ∈ bs, GoodBlock b) →
      selectionBlocksAux true cur bs.flatten = cur :: bs := by
  intro bs
  induction bs with
  | nil =>
    intro cur hcur _
    obtain ⟨hd, t, rfl, _, _⟩ := hcur
    simp [selectionBlocksAux]
  | cons b bs' ih =>
    intro cur hcur hall
    obtain ⟨hd, t, hb, hdog, htail⟩ := hall b (List.mem_cons_self _ _)
    have hcur' : cur.isEmpty = false := by
      obtain ⟨hd', t', rfl, _, _⟩ := hcur
      rfl
    have e0 : (b :: bs').flatten = hd :: (t ++ bs'.flatten) := by
      rw [List.flatten_cons, hb]
      rfl
    rw [e0]
    have e1 : selectionBlocksAux true cur (hd :: (t ++ bs'.flatten))
        = cur :: selectionBlocksAux true [hd] (t ++ bs'.flatten) := by
      simp only [selectionBlocksAux, lineStep_of_dog hdog, hcur', Bool.false_eq_true,
        if_false]
    rw [e1, selectionBlocksAux_absorb t htail [hd] bs'.flatten]
    have e2 : ([hd] : List Line) ++ t = b := by rw [hb]; simp
    rw [e2, ih b ⟨hd, t, hb, hdog, htail⟩
      (fun a ha => hall a (List.mem_cons_of_mem _ ha))]

/-- Header-free run of the filter while inside a selection: the output is
exactly the flattening of the kept blocks. -/
theorem filterDiverseAux_noheader_true (ls : List Line) :
    ∀ (cur : List Line) (used : List (List Char)),
      (∀ l ∈ ls, isSectionHeaderLine l = false) → cur ≠ [] →
      filterDiverseAux true cur used ls =
        (keepFirstPerRace used (selectionBlocksAux true cur ls)).flatten := by
  induction ls with
  | nil =>
    intro cur used _ hc
    have hc' : cur.isEmpty = false := by simpa using hc
    simp only [filterDiverseAux, selectionBlocksAux, hc', Bool.false_eq_true, if_false]
    cases hk : blockKey cur with
    | none => simp [keepFirstPerRace, hk]
    | some k =>
      by_cases hm : k ∈ used
      · simp [keepFirstPerRace, hk, hm]
      · simp [keepFirstPerRace, hk, hm]
  | cons l rest ih =>
    intro cur used hH hc
    have hHl := hH l (List.mem_cons_self _ _)
    have hHrest := fun a ha => hH a (List.mem_cons_of_mem _ ha)
    have hc' : cur.isEmpty = false := by simpa using hc
    simp only [filterDiverseAux, selectionBlocksAux]
    cases hs : lineStep true l with
    | dog =>
      simp only [hc', Bool.false_eq_true, if_false]
      cases hk : blockKey cur with
      | none =>
        simp [keepFirstPerRace, hk, ih [l] used hHrest (by simp)]
      | some k =>
        by_cases hm : k ∈ used
        · simp [keepFirstPerRace, hk, hm, ih [l] used hHrest (by simp)]
        · simp [keepFirstPerRace, hk, hm, ih [l] (k :: used) hHrest (by simp)]
    | header =>
      exact absurd (header_of_step_header hs) (by simp [hHl])
    | descr =>
      exact ih (cur ++ [l]) used hHrest (by simp)
    | passthrough =>
      exact absurd hs (lineStep_true_ne_passthrough l)
    | blankInSel =>
      exact ih (cur ++ [l]) used hHrest (by simp)
    | dropped =>
      exact ih cur used hHrest hc

/-- Header-free run of the filter from the idle state: a dog-free prefix is
passed through, then the kept blocks follow, flattened. -/
theorem filterDiverseAux_noheader_false (ls : List Line) :
    ∀ (used : List (List Char)), (∀ l ∈ ls, isSectionHeaderLine l = false) →
      filterDiverseAux false [] used ls =
        ls.takeWhile (fun l => !isDogLine l) ++
          (keepFirstPerRace used (selectionBlocksAux false [] ls)).flatten := by
  induction ls with
  | nil => intro used _; simp [filterDiverseAux, selectionBlocksAux, keepFirstPerRace]
  | cons l rest ih =>
    intro used hH
    have hHrest := fun a ha => hH a (List.mem_cons_of_mem _ ha)
    by_cases hd : isDogLine l
    · have hs : lineStep false l = .dog := by rw [lineStep_false_eq, if_pos hd]
      simp only [filterDiverseAux, selectionBlocksAux, hs, List.isEmpty_nil, if_true,
        List.takeWhile_cons, hd, Bool.not_true, Bool.false_eq_true, if_false,
        List.nil_append]
      exact filterDiverseAux_noheader_true rest [l] used hHrest (by simp)
    · have hs : lineStep false l = .passthrough := by
        rw [lineStep_false_eq, if_neg hd]
      have hd' : isDogLine l = false := by simpa using hd
      simp only [filterDiverseAux, selectionBlocksAux, hs, List.takeWhile_cons, hd',
        Bool.not_false, if_true, List.cons_append]
      rw [ih used hHrest]

/-- Claim C4 (amended): the diversification filter is idempotent on every
input none of whose lines is a tier-section header; the counterexample
above shows that a header interrupting a pending selection block makes a
second pass move that block, so idempotence fails on arbitrary input. -/
theorem claim_C4_amended_idempotent_without_headers (ls : List Line)
    (hH : ∀ l ∈ ls, isSectionHeaderLine l = false) :
    filterDiverseLines (filterDiverseLines ls) = filterDiverseLines ls := by
  have hblocksgood : ∀ b ∈ selectionBlocks ls, GoodBlock b :=
    selectionBlocksAux_good ls false [] (Or.inl ⟨rfl, rfl⟩)
  have hkeptgood : ∀ b ∈ keepFirstPerRace [] (selectionBlocks ls), GoodBlock b :=
    fun b hb => hblocksgood b (keepFirstPerRace_subset _ _ _ hb)
  have h1 : filterDiverseLines ls
      = ls.takeWhile (fun l => !isDogLine l) ++
        (keepFirstPerRace [] (selectionBlocks ls)).flatten :=
    filterDiverseAux_noheader_false ls [] hH
  have hlead_nodog : ∀ l ∈ ls.takeWhile (fun l => !isDogLine l), isDogLine l = false := by
    intro l hl
    have := pred_of_mem_takeWhile hl
    simpa using this
  have houtH : ∀ l ∈ filterDiverseLines ls, isSectionHeaderLine l = false := by
    rw [h1]
    intro l hl
    rcases List.mem_append.1 hl with h | h
    · exact hH l (mem_of_mem_takeWhile h)
    · obtain ⟨b, hb, hlb⟩ := List.mem_flatten.1 h
      obtain ⟨hd, tl, rfl, hdog, htail⟩ := hkeptgood b hb
      rcases List.mem_cons.1 hlb with rfl | hmem
      · exact dog_not_header hdog
      · exact (htail l hmem).2
  have h2 : filterDiverseLines (filterDiverseLines ls)
      = (filterDiverseLines ls).takeWhile (fun l => !isDogLine l) ++
        (keepFirstPerRace [] (selectionBlocks (filterDiverseLines ls))).flatten :=
    filterDiverseAux_noheader_false _ [] houtH
  have h3 : selectionBlocks (filterDiverseLines ls)
      = keepFirstPerRace [] (selectionBlocks ls) := by
    rw [h1]
    show selectionBlocksAux false []
        (ls.takeWhile (fun l => !isDogLine l) ++
          (keepFirstPerRace [] (selectionBlocks ls)).flatten)
      = keepFirstPerRace [] (selectionBlocks ls)
    rw [selectionBlocksAux_skip_nondog _ _ hlead_nodog]
    cases hk : keepFirstPerRace [] (selectionBlocks ls) with
    | nil => simp [selectionBlocksAux]
    | cons b bs' =>
      have hbgood : GoodBlock b := hkeptgood b (by rw [hk]; exact List.mem_cons_self _ _)
      have hbs'good : ∀ x ∈ bs', GoodBlock x :=
        fun x hx => hkeptgood x (by rw [hk]; exact List.mem_cons_of_mem _ hx)
      obtain ⟨hd, t, hb, hdog, htail⟩ := hbgood
      have e0 : (b :: bs').flatten = hd :: (t ++ bs'.flatten) := by
        rw [List.flatten_cons, hb]
        rfl
      rw [e0]
      have e1 : selectionBlocksAux false [] (hd :: (t ++ bs'.flatten))
          = selectionBlocksAux true [hd] (t ++ bs'.flatten) := by
        simp only [selectionBlocksAux, lineStep_of_dog hdog, List.isEmpty_nil, if_true]
      rw [e1, selectionBlocksAux_absorb t htail [hd] bs'.flatten]
      have e2 : ([hd] : List Line) ++ t = b := by rw [hb]; simp
      rw [e2, selectionBlocksAux_flatten bs' b ⟨hd, t, hb, hdog, htail⟩ hbs'good]
  have h5 : (filterDiverseLines ls).takeWhile (fun l => !isDogLine l)
      = ls.takeWhile (fun l => !isDogLine l) := by
    rw [h1]
    rw [takeWhile_append_all _ (by intro x hx; simp [hlead_nodog x hx])]
    cases hk : keepFirstPerRace [] (selectionBlocks ls) with
    | nil => simp
    | cons b bs' =>
      have hbgood : GoodBlock b := hkeptgood b (by rw [hk]; exact List.mem_cons_self _ _)
      obtain ⟨hd, t, hb, hdog, htail⟩ := hbgood
      have e0 : (b :: bs').flatten = hd :: (t ++ bs'.flatten) := by
        rw [List.flatten_cons, hb]
        rfl
      rw [e0, List.takeWhile_cons, hdog]
      simp
  rw [h2, h3, keepFirstPerRace_idem, h5, ← h1]

/-- Witness for the amended C4 at a concrete header-free input. -/
theorem claim_C4_witness :
    (∀ l ∈ idemSample, isSectionHeaderLine l = false)
    ∧ filterDiverseLines (filterDiverseLines idemSample) = filterDiverseLines idemSample :=
  ⟨by decide, claim_C4_amended_idempotent_without_headers idemSample (by decide)⟩

theorem fixStakeAux_get (ls : List Line) :
    ∀ (sect : Option StakeTier) (i : Nat) (hi : i < ls.length),
      (fixStakeAux sect ls).get? i =
        some (match tierHeaderOf (ls.get ⟨i, hi⟩) with
              | some _ => ls.get ⟨i, hi⟩
              | none =>
                if isStakeLine (ls.get ⟨i, hi⟩) then
                  match (ls.take i).foldl
                      (fun acc l => match tierHeaderOf l with
                                    | some t => some t
                                    | none => acc) sect with
                  | some t => canonicalStake t
                  | none => ls.get ⟨i, hi⟩
                else ls.get ⟨i, hi⟩) := by
  induction ls with
  | nil => intro sect i hi; cases hi
  | cons l rest ih =>
    intro sect i hi
    cases i with
    | zero =>
      simp only [fixStakeAux, List.take_zero, List.foldl_nil, List.get]
      cases ht : tierHeaderOf l with
      | some t => simp [ht]
      | none =>
        by_cases hst : isStakeLine l
        · simp [ht, hst]
        · simp [ht, hst]
    | succ j =>
      have hj : j < rest.length := Nat.lt_of_succ_lt_succ hi
      have htake : (l :: rest).take (j + 1) = l :: rest.take j := rfl
      cases ht : tierHeaderOf l with
      | some t =>
        simp only [fixStakeAux, ht, List.get?_cons_succ, List.get, htake,
          List.foldl_cons]
        rw [ih (some t) j hj]
      | none =>
        by_cases hst : isStakeLine l
        · simp only [fixStakeAux, ht, hst, if_true, List.get?_cons_succ, List.get,
            htake, List.foldl_cons]
          rw [ih sect j hj]
        · simp only [fixStakeAux, ht, hst, Bool.false_eq_true, if_false,
            List.get?_cons_succ, List.get, htake, List.foldl_cons]
          rw [ih sect j hj]

/-- Claim C5: in the stake-label normalizer of `validate_and_fix_selections`,
every stake line after the most recently seen tier header is rewritten to
exactly that tier's canonical amount-and-bet-type line, and every stake
line seen before any tier header is left unchanged; the later no-premium
insertion touches no stake line. -/
theorem claim_C5_stake_normalizer (ls : List Line) :
    (∀ (i : Nat) (hi : i < ls.length),
        isStakeLine (ls.get ⟨i, hi⟩) = true →
        tierHeaderOf (ls.get ⟨i, hi⟩) = none →
        (∀ t, activeTierBefore ls i = some t →
            (fix_stake_lines ls).get? i = some (canonicalStake t))
        ∧ (activeTierBefore ls i = none →
            (fix_stake_lines ls).get? i = some (ls.get ⟨i, hi⟩)))
    ∧ (insert_no_premium (fix_stake_lines ls)).filter isStakeLine
        = (fix_stake_lines ls).filter isStakeLine := by
  constructor
  · intro i hi hst hht
    unfold fix_stake_lines
    have h := fixStakeAux_get ls none i hi
    rw [hht, hst] at h
    simp only [if_true] at h
    constructor
    · intro t hat
      rw [h]
      rw [show ((ls.take i).foldl
          (fun acc l => match tierHeaderOf l with
                        | some t => some t
                        | none => acc) none) = some t from hat]
    · intro hat
      rw [h]
      rw [show ((ls.take i).foldl
          (fun acc l => match tierHeaderOf l with
                        | some t => some t
                        | none => acc) none) = none from hat]
  · unfold insert_no_premium
    cases findPremiumIdx (fix_stake_lines ls) with
    | none => rfl
    | some idx =>
      by_cases hp : hasActualPremium ((fix_stake_lines ls).drop (idx + 1))
      · simp [hp]
      · simp only [hp, Bool.false_eq_true, if_false]
        rw [List.filter_append, List.filter_append]
        have hmid : ([[], noPremiumMsg, []] : List Line).filter isStakeLine = [] := by
          decide
        rw [hmid]
        rw [List.append_nil, ← List.filter_append, List.take_append_drop]

/-- Witness for C5: the mislabelled stake line after the premium header is
rewritten to the premium canonical line, and the stake line before any
header is left unchanged. -/
theorem claim_C5_witness :
    (3 < stakeSample.length ∧ 0 < stakeSample.length)
    ∧ (fix_stake_lines stakeSample).get? 3 = some (canonicalStake StakeTier.premium)
    ∧ (fix_stake_lines stakeSample).get? 0 = some ("💰 **Stake:** 9.9 Units".toList) :=
  ⟨⟨by decide, by decide⟩,
   ((claim_C5_stake_normalizer stakeSample).1 3 (by decide) (by decide) (by decide)).1
     StakeTier.premium (by decide),
   ((claim_C5_stake_normalizer stakeSample).1 0 (by decide) (by decide) (by decide)).2
     (by decide)⟩

theorem scheduler_no_refire (st : SchedStatus) (D : String)
    (hst : st.last_noon_run = some D) :
    ∀ (ps : List Poll), (∀ p ∈ ps, p.today_str = D) →
      scheduler_run st ps = (st, 0) := by
  intro ps
  induction ps with
  | nil => intro _; rfl
  | cons p ps ih =>
    intro hall
    have hp := hall p (List.mem_cons_self _ _)
    have hcond : ¬ (is_noon_time p ∧ st.last_noon_run ≠ some p.today_str) := by
      rintro ⟨_, hne⟩
      exact hne (by rw [hst, hp])
    simp only [scheduler_run, scheduler_step, if_neg hcond]
    rw [ih (fun q hq => hall q (List.mem_cons_of_mem _ hq))]
    simp

/-- Claim C6: over consecutive polls inside the noon window on one civil
date, with the fire succeeding, the scheduler fires exactly once and leaves
the date in the persisted marker; a fire only ever happens when the marker
differs from the poll's date, and a successful fire stores that date. -/
theorem claim_C6_scheduler_at_most_once :
    (∀ (st : SchedStatus) (p : Poll),
        (scheduler_step st p).2 = true → st.last_noon_run ≠ some p.today_str)
    ∧ (∀ (st : SchedStatus) (p : Poll),
        (scheduler_step st p).2 = true → p.fire_succeeds = true →
        (scheduler_step st p).1.last_noon_run = some p.today_str)
    ∧ ∀ (st : SchedStatus) (D : String) (ps : List Poll),
        ps ≠ [] →
        (∀ p ∈ ps, is_noon_time p ∧ p.today_str = D ∧ p.fire_succeeds = true) →
        st.last_noon_run ≠ some D →
        (scheduler_run st ps).2 = 1 ∧ (scheduler_run st ps).1.last_noon_run = some D := by
  refine ⟨?_, ?_, ?_⟩
  · intro st p hf
    unfold scheduler_step at hf
    split_ifs at hf with h1 h2
    all_goals exact h1.2
  · intro st p hf hs
    unfold scheduler_step at hf ⊢
    split_ifs at hf ⊢ with h1 h2
    all_goals rfl
  · intro st D ps hne hall hst
    cases ps with
    | nil => exact absurd rfl hne
    | cons p ps' =>
      have ⟨hw, hd, hs⟩ := hall p (List.mem_cons_self _ _)
      have hcond : is_noon_time p ∧ st.last_noon_run ≠ some p.today_str := by
        exact ⟨hw, by rw [hd]; exact hst⟩
      have hstep : scheduler_step st p = (⟨some p.today_str, some p.current_timestamp⟩, true) := by
        unfold scheduler_step
        rw [if_pos hcond, if_pos hs]
      have hrest : scheduler_run (⟨some p.today_str, some p.current_timestamp⟩ : SchedStatus) ps'
          = (⟨some p.today_str, some p.current_timestamp⟩, 0) :=
        scheduler_no_refire _ D (by rw [hd])
          ps' (fun q hq => (hall q (List.mem_cons_of_mem _ hq)).2.1)
      simp only [scheduler_run, hstep, hrest]
      exact ⟨rfl, by rw [hd]⟩

/-- Witness for C6: three in-window polls on the same date, fresh marker. -/
theorem claim_C6_witness :
    (([⟨12, 0, "2025-08-17", "t0", true⟩,
       ⟨12, 1, "2025-08-17", "t1", true⟩,
       ⟨12, 2, "2025-08-17", "t2", true⟩] : List Poll) ≠ [])
    ∧ (scheduler_run ⟨none, none⟩
        [⟨12, 0, "2025-08-17", "t0", true⟩,
         ⟨12, 1, "2025-08-17", "t1", true⟩,
         ⟨12, 2, "2025-08-17", "t2", true⟩]).2 = 1 :=
  ⟨by decide,
   (claim_C6_scheduler_at_most_once.2.2 ⟨none, none⟩ "2025-08-17"
     [⟨12, 0, "2025-08-17", "t0", true⟩,
      ⟨12, 1, "2025-08-17", "t1", true⟩,
      ⟨12, 2, "2025-08-17", "t2", true⟩]
     (by decide) (by decide) (by decide)).1⟩

theorem retryAux_ok_valid {stub : Nat → AttemptOutcome} {d s : String}
    {attempt fuel sleeps notifs : Nat}
    (h : stub attempt = .ok s) (hv : min_length_ok s) :
    retryAux stub d attempt (fuel + 1) sleeps notifs = ⟨s, sleeps, notifs⟩ := by
  simp only [retryAux, h, if_pos hv]

theorem retryAux_ok_invalid_mid {stub : Nat → AttemptOutcome} {d s : String}
    {attempt fuel sleeps notifs : Nat}
    (h : stub attempt = .ok s) (hv : ¬ min_length_ok s)
    (hlast : attempt ≠ max_retries - 1) :
    retryAux stub d attempt (fuel + 1) sleeps notifs
      = retryAux stub d (attempt + 1) fuel sleeps notifs := by
  simp only [retryAux, h, if_neg hv, if_neg hlast]

theorem retryAux_ok_invalid_last {stub : Nat → AttemptOutcome} {d s : String}
    {attempt fuel sleeps notifs : Nat}
    (h : stub attempt = .ok s) (hv : ¬ min_length_ok s)
    (hlast : attempt = max_retries - 1) :
    retryAux stub d attempt (fuel + 1) sleeps notifs
      = ⟨recovery_mode_text d, sleeps, notifs⟩ := by
  simp only [retryAux, h, if_neg hv, if_pos hlast]

theorem retryAux_exn_generic_mid {stub : Nat → AttemptOutcome} {d e : String}
    {attempt fuel sleeps notifs : Nat}
    (h : stub attempt = .exn e) (hnt : strContains e nonetype_marker = false)
    (hlast : attempt ≠ max_retries - 1) :
    retryAux stub d attempt (fuel + 1) sleeps notifs
      = retryAux stub d (attempt + 1) fuel (sleeps + 1) notifs := by
  simp only [retryAux, h, hnt, Bool.false_eq_true, if_false, if_neg hlast]

theorem retryAux_exn_generic_last {stub : Nat → AttemptOutcome} {d e : String}
    {attempt fuel sleeps notifs : Nat}
    (h : stub attempt = .exn e) (hnt : strContains e nonetype_marker = false)
    (hlast : attempt = max_retries - 1) :
    retryAux stub d attempt (fuel + 1) sleeps notifs
      = ⟨technical_error_text e, sleeps, notifs + 1⟩ := by
  simp only [retryAux, h, hnt, Bool.false_eq_true, if_false, if_pos hlast]

theorem retryAux_exn_nonetype_mid {stub : Nat → AttemptOutcome} {d e : String}
    {attempt fuel sleeps notifs : Nat}
    (h : stub attempt = .exn e) (hnt : strContains e nonetype_marker = true)
    (hlast : attempt ≠ max_retries - 1) :
    retryAux stub d attempt (fuel + 1) sleeps notifs
      = retryAux stub d (attempt + 1) fuel (sleeps + 1) notifs := by
  simp only [retryAux, h, hnt, if_true, if_neg hlast]

theorem retryAux_exn_nonetype_last {stub : Nat → AttemptOutcome} {d e : String}
    {attempt fuel sleeps notifs : Nat}
    (h : stub attempt = .exn e) (hnt : strContains e nonetype_marker = true)
    (hlast : attempt = max_retries - 1) :
    retryAux stub d attempt (fuel + 1) sleeps notifs
      = ⟨recovery_mode_text d, sleeps, notifs⟩ := by
  simp only [retryAux, h, hnt, if_true, if_pos hlast]

theorem isPrefixOf_self : ∀ (l : List Char), l.isPrefixOf l = true := by
  intro l
  induction l with
  | nil => rfl
  | cons a t ih => simp [List.isPrefixOf, ih]

theorem containsL_append_suffix : ∀ (a b : List Char), containsL (a ++ b) b = true := by
  intro a b
  induction a with
  | nil =>
    cases b with
    | nil => rfl
    | cons x t => simp [containsL, isPrefixOf_self]
  | cons x t ih => simp [containsL, ih]

/-- The technical-error return embeds the raw exception string. -/
theorem technical_error_text_embeds (e : String) :
    strContains (technical_error_text e) e = true := by
  unfold strContains technical_error_text
  have happ : ∀ a b : String, (a ++ b).toList = a.toList ++ b.toList :=
    fun a b => String.data_append a b
  rw [happ]
  exact containsL_append_suffix _ _

/-- The loop sleeps at most `max_retries - 1` times — in particular never
after the final attempt.  `attempt + fuel = max_retries` is the loop
invariant of the fuel transliteration. -/
theorem retryAux_sleeps_le (stub : Nat → AttemptOutcome) (d : String) :
    ∀ (fuel attempt : Nat), attempt + fuel = max_retries →
      ∀ (sleeps notifs : Nat),
        (retryAux stub d attempt fuel sleeps notifs).sleeps ≤ sleeps + (fuel - 1) := by
  intro fuel
  induction fuel with
  | zero => intro attempt _ sleeps notifs; simp [retryAux]
  | succ f ih =>
    intro attempt hinv sleeps notifs
    have h3 : max_retries = 3 := rfl
    rw [h3] at hinv
    cases hstub : stub attempt with
    | ok s =>
      by_cases hv : min_length_ok s
      · rw [retryAux_ok_valid hstub hv]; simp
      · by_cases hlast : attempt = max_retries - 1
        · rw [retryAux_ok_invalid_last hstub hv hlast]; simp
        · rw [retryAux_ok_invalid_mid hstub hv hlast]
          have hb := ih (attempt + 1) (by omega) sleeps notifs
          omega
    | exn e =>
      cases hnt : strContains e nonetype_marker with
      | true =>
        by_cases hlast : attempt = max_retries - 1
        · rw [retryAux_exn_nonetype_last hstub hnt hlast]; simp
        · rw [retryAux_exn_nonetype_mid hstub hnt hlast]
          rw [h3] at hlast
          have hb := ih (attempt + 1) (by omega) (sleeps + 1) notifs
          have hf : 1 ≤ f := by omega
          omega
      | false =>
        by_cases hlast : attempt = max_retries - 1
        · rw [retryAux_exn_generic_last hstub hnt hlast]; simp
        · rw [retryAux_exn_generic_mid hstub hnt hlast]
          rw [h3] at hlast
          have hb := ih (attempt + 1) (by omega) (sleeps + 1) notifs
          have hf : 1 ≤ f := by omega
          omega

/-! Whole-run shapes of the orchestrator, per failure mode. -/

theorem retry_run_all_invalid {stub : Nat → AttemptOutcome} {d s0 s1 s2 : String}
    (h0 : stub 0 = .ok s0) (hv0 : ¬ min_length_ok s0)
    (h1 : stub 1 = .ok s1) (hv1 : ¬ min_length_ok s1)
    (h2 : stub 2 = .ok s2) (hv2 : ¬ min_length_ok s2) :
    analyze_greyhound_racing_day_with_retry stub d
      = ⟨recovery_mode_text d, 0, 0⟩ :=
  calc analyze_greyhound_racing_day_with_retry stub d
      = retryAux stub d 0 (2 + 1) 0 0 := rfl
    _ = retryAux stub d 1 (1 + 1) 0 0 := retryAux_ok_invalid_mid h0 hv0 (by decide)
    _ = retryAux stub d 2 (0 + 1) 0 0 := retryAux_ok_invalid_mid h1 hv1 (by decide)
    _ = ⟨recovery_mode_text d, 0, 0⟩ := retryAux_ok_invalid_last h2 hv2 (by decide)

theorem retry_run_all_generic {stub : Nat → AttemptOutcome} {d e0 e1 e2 : String}
    (h0 : stub 0 = .exn e0) (hn0 : strContains e0 nonetype_marker = false)
    (h1 : stub 1 = .exn e1) (hn1 : strContains e1 nonetype_marker = false)
    (h2 : stub 2 = .exn e2) (hn2 : strContains e2 nonetype_marker = false) :
    analyze_greyhound_racing_day_with_retry stub d
      = ⟨technical_error_text e2, 2, 1⟩ :=
  calc analyze_greyhound_racing_day_with_retry stub d
      = retryAux stub d 0 (2 + 1) 0 0 := rfl
    _ = retryAux stub d 1 (1 + 1) (0 + 1) 0 := retryAux_exn_generic_mid h0 hn0 (by decide)
    _ = retryAux stub d 2 (0 + 1) (0 + 1 + 1) 0 := retryAux_exn_generic_mid h1 hn1 (by decide)
    _ = ⟨technical_error_text e2, 0 + 1 + 1, 0 + 1⟩ :=
        retryAux_exn_generic_last h2 hn2 (by decide)
    _ = ⟨technical_error_text e2, 2, 1⟩ := rfl

theorem retry_run_all_nonetype {stub : Nat → AttemptOutcome} {d e0 e1 e2 : String}
    (h0 : stub 0 = .exn e0) (hn0 : strContains e0 nonetype_marker = true)
    (h1 : stub 1 = .exn e1) (hn1 : strContains e1 nonetype_marker = true)
    (h2 : stub 2 = .exn e2) (hn2 : strContains e2 nonetype_marker = true) :
    analyze_greyhound_racing_day_with_retry stub d
      = ⟨recovery_mode_text d, 2, 0⟩ :=
  calc analyze_greyhound_racing_day_with_retry stub d
      = retryAux stub d 0 (2 + 1) 0 0 := rfl
    _ = retryAux stub d 1 (1 + 1) (0 + 1) 0 := retryAux_exn_nonetype_mid h0 hn0 (by decide)
    _ = retryAux stub d 2 (0 + 1) (0 + 1 + 1) 0 := retryAux_exn_nonetype_mid h1 hn1 (by decide)
    _ = ⟨recovery_mode_text d, 0 + 1 + 1, 0⟩ := retryAux_exn_nonetype_last h2 hn2 (by decide)
    _ = ⟨recovery_mode_text d, 2, 0⟩ := rfl

theorem retry_run_exn_exn_ok {stub : Nat → AttemptOutcome} {d e0 e1 s2 : String}
    (h0 : stub 0 = .exn e0) (hn0 : strContains e0 nonetype_marker = false)
    (h1 : stub 1 = .exn e1) (hn1 : strContains e1 nonetype_marker = false)
    (h2 : stub 2 = .ok s2) (hv2 : min_length_ok s2) :
    analyze_greyhound_racing_day_with_retry stub d = ⟨s2, 2, 0⟩ :=
  calc analyze_greyhound_racing_day_with_retry stub d
      = retryAux stub d 0 (2 + 1) 0 0 := rfl
    _ = retryAux stub d 1 (1 + 1) (0 + 1) 0 := retryAux_exn_generic_mid h0 hn0 (by decide)
    _ = retryAux stub d 2 (0 + 1) (0 + 1 + 1) 0 := retryAux_exn_generic_mid h1 hn1 (by decide)
    _ = ⟨s2, 0 + 1 + 1, 0⟩ := retryAux_ok_valid h2 hv2
    _ = ⟨s2, 2, 0⟩ := rfl

theorem retry_run_empty_empty_ok {stub : Nat → AttemptOutcome} {d s0 s1 s2 : String}
    (h0 : stub 0 = .ok s0) (hv0 : ¬ min_length_ok s0)
    (h1 : stub 1 = .ok s1) (hv1 : ¬ min_length_ok s1)
    (h2 : stub 2 = .ok s2) (hv2 : min_length_ok s2) :
    analyze_greyhound_racing_day_with_retry stub d = ⟨s2, 0, 0⟩ :=
  calc analyze_greyhound_racing_day_with_retry stub d
      = retryAux stub d 0 (2 + 1) 0 0 := rfl
    _ = retryAux stub d 1 (1 + 1) 0 0 := retryAux_ok_invalid_mid h0 hv0 (by decide)
    _ = retryAux stub d 2 (0 + 1) 0 0 := retryAux_ok_invalid_mid h1 hv1 (by decide)
    _ = ⟨s2, 0, 0⟩ := retryAux_ok_valid h2 hv2

/-- Counterexample to claim C1: a stub that always fails by returning an
empty result exhausts all attempts, yet the orchestrator delivers zero
operator notifications (the claim demands exactly one). -/
theorem claim_C1_counterexample :
    (analyze_greyhound_racing_day_with_retry (fun _ => .ok "") "August 17, 2025").notifications = 0
    ∧ (analyze_greyhound_racing_day_with_retry (fun _ => .ok "") "August 17, 2025").notifications ≠ 1 :=
  ⟨by decide, by decide⟩

/-- Claim C1 (amended): the exhaustion behaviour depends on the failure
mode.  All attempts returning empty/too-short output: the canned
System-Recovery-Mode text is returned with zero operator notifications.
All attempts raising generic exceptions: exactly one operator notification
is sent, but the returned text is the technical-error message (which embeds
the exception string), not the recovery text.  All attempts raising the
specially-cased NoneType iteration error: the recovery text is returned
with zero notifications. -/
theorem claim_C1_amended_exhaustion_modes :
    (∀ (stub : Nat → AttemptOutcome) (d s0 s1 s2 : String),
        stub 0 = .ok s0 → ¬ min_length_ok s0 →
        stub 1 = .ok s1 → ¬ min_length_ok s1 →
        stub 2 = .ok s2 → ¬ min_length_ok s2 →
        analyze_greyhound_racing_day_with_retry stub d
          = ⟨recovery_mode_text d, 0, 0⟩)
    ∧ (∀ (stub : Nat → AttemptOutcome) (d e0 e1 e2 : String),
        stub 0 = .exn e0 → strContains e0 nonetype_marker = false →
        stub 1 = .exn e1 → strContains e1 nonetype_marker = false →
        stub 2 = .exn e2 → strContains e2 nonetype_marker = false →
        analyze_greyhound_racing_day_with_retry stub d
          = ⟨technical_error_text e2, 2, 1⟩)
    ∧ (∀ (stub : Nat → AttemptOutcome) (d e0 e1 e2 : String),
        stub 0 = .exn e0 → strContains e0 nonetype_marker = true →
        stub 1 = .exn e1 → strContains e1 nonetype_marker = true →
        stub 2 = .exn e2 → strContains e2 nonetype_marker = true →
        analyze_greyhound_racing_day_with_retry stub d
          = ⟨recovery_mode_text d, 2, 0⟩) :=
  ⟨fun _ _ _ _ _ h0 hv0 h1 hv1 h2 hv2 =>
      retry_run_all_invalid h0 hv0 h1 hv1 h2 hv2,
   fun _ _ _ _ _ h0 hn0 h1 hn1 h2 hn2 =>

      retry_run_all_generic h0 hn0 h1 hn1 h2 hn2,
   fun _ _ _ _ _ h0 hn0 h1 hn1 h2 hn2 =>
      retry_run_all_nonetype h0 hn0 h1 hn1 h2 hn2⟩

/-- Witness for the amended C1: generic exceptions on every attempt give
exactly one notification and the technical-error text. -/
theorem claim_C1_witness :
    (strContains "HTTP 500" nonetype_marker = false)
    ∧ analyze_greyhound_racing_day_with_retry (fun _ => .exn "HTTP 500") "August 17, 2025"
        = ⟨technical_error_text "HTTP 500", 2, 1⟩ :=
  ⟨by decide,
   claim_C1_amended_exhaustion_modes.2.1 (fun _ => .exn "HTTP 500") "August 17, 2025"
     "HTTP 500" "HTTP 500" "HTTP 500" rfl (by decide) rfl (by decide) rfl (by decide)⟩

/-- Counterexample to claim C2: when the final attempt raises a generic
exception, the text handed back for delivery embeds the raw exception
string (`str(e)`, here `"boom"`). -/
theorem claim_C2_counterexample :
    strContains
      (analyze_greyhound_racing_day_with_retry (fun _ => .exn "boom") "August 17, 2025").result
      "boom" = true := by
  decide

/-- Claim C2 (amended): the empty-result exhaustion path returns the canned
recovery message, but the generic-exception exhaustion path returns
`"⚠️ Technical error after 3 attempts: " + str(e)`, which embeds the raw
exception string in the text returned for delivery. -/
theorem claim_C2_amended_error_text :
    (∀ (stub : Nat → AttemptOutcome) (d e0 e1 e2 : String),
        stub 0 = .exn e0 → strContains e0 nonetype_marker = false →
        stub 1 = .exn e1 → strContains e1 nonetype_marker = false →
        stub 2 = .exn e2 → strContains e2 nonetype_marker = false →
        (analyze_greyhound_racing_day_with_retry stub d).result = technical_error_text e2
        ∧ strContains (analyze_greyhound_racing_day_with_retry stub d).result e2 = true)
    ∧ (∀ (stub : Nat → AttemptOutcome) (d s0 s1 s2 : String),
        stub 0 = .ok s0 → ¬ min_length_ok s0 →
        stub 1 = .ok s1 → ¬ min_length_ok s1 →
        stub 2 = .ok s2 → ¬ min_length_ok s2 →
        (analyze_greyhound_racing_day_with_retry stub d).result = recovery_mode_text d) :=
  ⟨fun stub d e0 e1 e2 h0 hn0 h1 hn1 h2 hn2 => by
      have h := retry_run_all_generic (d := d) h0 hn0 h1 hn1 h2 hn2
      rw [h]
      exact ⟨rfl, technical_error_text_embeds e2⟩,
   fun stub d s0 s1 s2 h0 hv0 h1 hv1 h2 hv2 => by
      rw [retry_run_all_invalid (d := d) h0 hv0 h1 hv1 h2 hv2]⟩

/-- Witness for the amended C2 at concrete inputs. -/
theorem claim_C2_witness :
    (strContains "socket timeout" nonetype_marker = false)
    ∧ (analyze_greyhound_racing_day_with_retry (fun _ => .exn "socket timeout") "May 01, 2025").result
        = technical_error_text "socket timeout"
    ∧ strContains
        (analyze_greyhound_racing_day_with_retry (fun _ => .exn "socket timeout") "May 01, 2025").result
        "socket timeout" = true :=
  ⟨by decide,
   (claim_C2_amended_error_text.1 (fun _ => .exn "socket timeout") "May 01, 2025"
     "socket timeout" "socket timeout" "socket timeout"
     rfl (by decide) rfl (by decide) rfl (by decide)).1,
   (claim_C2_amended_error_text.1 (fun _ => .exn "socket timeout") "May 01, 2025"
     "socket timeout" "socket timeout" "socket timeout"
     rfl (by decide) rfl (by decide) rfl (by decide)).2⟩

set_option maxRecDepth 8192 in
/-- Counterexample to claim C9: a stub whose first two calls fail by
returning empty output and whose third call succeeds returns the third
result after zero backoff sleeps, not two. -/
theorem claim_C9_counterexample :
    (analyze_greyhound_racing_day_with_retry
        (fun i => if i = 2 then .ok longTip else .ok "") "August 17, 2025").result = longTip
    ∧ (analyze_greyhound_racing_day_with_retry
        (fun i => if i = 2 then .ok longTip else .ok "") "August 17, 2025").sleeps = 0
    ∧ (0 : Nat) ≠ 2 :=
  ⟨by decide, by decide, by decide⟩

/-- Claim C9 (amended): the backoff interval is slept only between attempts
that failed by raising an exception, never after an empty/too-short result
and never after the final attempt.  Two exception failures followed by an
accepted third result give exactly two sleeps; two empty results followed
by an accepted third give zero sleeps; no run sleeps more than
`max_retries - 1` times. -/
theorem claim_C9_amended_backoff :
    (∀ (stub : Nat → AttemptOutcome) (d e0 e1 s2 : String),
        stub 0 = .exn e0 → strContains e0 nonetype_marker = false →
        stub 1 = .exn e1 → strContains e1 nonetype_marker = false →
        stub 2 = .ok s2 → min_length_ok s2 →
        analyze_greyhound_racing_day_with_retry stub d = ⟨s2, 2, 0⟩)
    ∧ (∀ (stub : Nat → AttemptOutcome) (d s0 s1 s2 : String),
        stub 0 = .ok s0 → ¬ min_length_ok s0 →
        stub 1 = .ok s1 → ¬ min_length_ok s1 →
        stub 2 = .ok s2 → min_length_ok s2 →
        analyze_greyhound_racing_day_with_retry stub d = ⟨s2, 0, 0⟩)
    ∧ (∀ (stub : Nat → AttemptOutcome) (d : String),
        (analyze_greyhound_racing_day_with_retry stub d).sleeps ≤ max_retries - 1) :=
  ⟨fun _ _ _ _ _ h0 hn0 h1 hn1 h2 hv2 =>
      retry_run_exn_exn_ok h0 hn0 h1 hn1 h2 hv2,
   fun _ _ _ _ _ h0 hv0 h1 hv1 h2 hv2 =>
      retry_run_empty_empty_ok h0 hv0 h1 hv1 h2 hv2,
   fun stub d => by
      have h := retryAux_sleeps_le stub d max_retries 0 rfl 0 0
      simpa using h⟩

set_option maxRecDepth 8192 in
/-- Witness for the amended C9: two exception failures then an accepted
result give the third result and exactly two sleeps. -/
theorem claim_C9_witness :
    (min_length_ok longTip ∧ strContains "API error" nonetype_marker = false)
    ∧ analyze_greyhound_racing_day_with_retry
        (fun i => if i = 2 then .ok longTip else .exn "API error") "August 17, 2025"
      = ⟨longTip, 2, 0⟩ :=
  ⟨⟨by decide, by decide⟩,
   claim_C9_amended_backoff.1
     (fun i => if i = 2 then .ok longTip else .exn "API error") "August 17, 2025"
     "API error" "API error" longTip rfl (by decide) rfl (by decide) rfl (by decide)⟩

theorem fallback_foldl_collect (ps : List GPart) :
    ∀ (acc : String),
      ps.foldl
        (fun acc p =>
          match p.text with
          | some t => if t ≠ "" then acc ++ t else acc
          | none => acc) acc = acc ++ collectTexts ps := by
  induction ps with
  | nil => intro acc; simp [collectTexts]
  | cons p ps ih =>
    intro acc
    obtain ⟨pt, pth⟩ := p
    cases pt with
    | none =>
      simp only [List.foldl_cons, collectTexts]
      rw [ih]
      simp
    | some t =>
      simp only [List.foldl_cons, collectTexts]
      rw [ih]
      by_cases hne : t ≠ ""
      · rw [if_pos hne, if_pos hne, String.append_assoc]
      · rw [if_neg hne, if_neg hne]
        simp

theorem collectTexts_append (a b : List GPart) :
    collectTexts (a ++ b) = collectTexts a ++ collectTexts b := by
  induction a with
  | nil => simp [collectTexts]
  | cons p t ih => simp [collectTexts, ih, String.append_assoc]

theorem isPrefixOf_append_self : ∀ (a b : List Char), a.isPrefixOf (a ++ b) = true := by
  intro a b
  induction a with
  | nil => simp [List.isPrefixOf]
  | cons x t ih => simp [List.isPrefixOf, ih]

theorem containsL_of_append_left {y : List Char} (x : List Char) {p : List Char}
    (h : containsL y p = true) : containsL (x ++ y) p = true := by
  induction x with
  | nil => simpa using h
  | cons a t ih => simp [containsL, ih]

theorem containsL_append_mid (x t b : List Char) :
    containsL (x ++ (t ++ b)) t = true := by
  apply containsL_of_append_left
  cases t with
  | nil =>
    cases b with
    | nil => simp [containsL, List.isPrefixOf]
    | cons c cs => simp [containsL, List.isPrefixOf]
  | cons c cs => simp [containsL, isPrefixOf_append_self]

/-- Counterexample to claim C7: `call_gemini_fallback` performs no
thought filtering, so the thought-flagged part's text reaches the caller. -/
theorem claim_C7_counterexample :
    strContains (call_gemini_fallback_extract (some thoughtResponse)) "THOUGHT" = true := by
  decide

/-- Claim C7 (amended): the plain completion path concatenates the text of
every part whose text attribute is present and non-empty, regardless of the
`thought` flag; in particular any non-empty thought-flagged text occurs in
the returned string. -/
theorem claim_C7_amended_no_thought_filter :
    (∀ (r : GResponse) (c : GCandidate) (rest : List GCandidate) (ct : GContent),
        r.candidates = c :: rest → c.content = some ct →
        call_gemini_fallback_extract (some r) = collectTexts ct.parts)
    ∧ (∀ (r : GResponse) (c : GCandidate) (rest : List GCandidate) (ct : GContent)
        (pre suf : List GPart) (t : String),
        r.candidates = c :: rest → c.content = some ct →
        ct.parts = pre ++ (⟨some t, true⟩ : GPart) :: suf →
        strContains (call_gemini_fallback_extract (some r)) t = true) := by
  have hmain : ∀ (r : GResponse) (c : GCandidate) (rest : List GCandidate) (ct : GContent),
      r.candidates = c :: rest → c.content = some ct →
      call_gemini_fallback_extract (some r) = collectTexts ct.parts := by
    intro r c rest ct hc hct
    simp only [call_gemini_fallback_extract, hc, hct]
    rw [fallback_foldl_collect]
    simp
  refine ⟨hmain, ?_⟩
  intro r c rest ct pre suf t hc hct hparts
  rw [hmain r c rest ct hc hct, hparts, collectTexts_append]
  by_cases hne : t ≠ ""
  · have hmid : collectTexts ((⟨some t, true⟩ : GPart) :: suf) = t ++ collectTexts suf := by
      simp [collectTexts, hne]
    rw [hmid]
    unfold strContains
    have happ : ∀ a b : String, (a ++ b).toList = a.toList ++ b.toList :=
      fun a b => String.data_append a b
    rw [happ, happ]
    exact containsL_append_mid _ _ _
  · simp only [not_not] at hne
    rw [hne]
    unfold strContains
    cases hl : (collectTexts pre ++ collectTexts ((⟨some "", true⟩ : GPart) :: suf)).toList with
    | nil => rfl
    | cons a l => simp [containsL, List.isPrefixOf]

/-- Witness for the amended C7 at the concrete thought-carrying response. -/
theorem claim_C7_witness :
    (thoughtResponse.candidates
        = [⟨some ⟨[⟨some "THOUGHT: lean towards box one. ", true⟩,
                   ⟨some "final tips text", false⟩]⟩⟩])
    ∧ strContains (call_gemini_fallback_extract (some thoughtResponse))
        "THOUGHT: lean towards box one. " = true :=
  ⟨rfl,
   claim_C7_amended_no_thought_filter.2 thoughtResponse
     ⟨some ⟨[⟨some "THOUGHT: lean towards box one. ", true⟩,
             ⟨some "final tips text", false⟩]⟩⟩ []
     ⟨[⟨some "THOUGHT: lean towards box one. ", true⟩,
       ⟨some "final tips text", false⟩]⟩
     [] [⟨some "final tips text", false⟩] "THOUGHT: lean towards box one. "
     rfl rfl rfl⟩

/-- Claim C8: a parseable override yields exactly that calendar date, on
every wall-clock instant; a malformed override falls back to the live
Australian clock without raising (the embedding is total). -/
theorem claim_C8_override_date :
    (∀ (s : String) (ymd : Nat × Nat × Nat) (now now' : Nat × Nat × Nat),
        strptime_Ymd s = some ymd →
        get_effective_date (some s) now = .overridden ymd
        ∧ get_effective_date (some s) now = get_effective_date (some s) now')
    ∧ (∀ (s : String) (now : Nat × Nat × Nat),
        strptime_Ymd s = none →
        get_effective_date (some s) now = .live now) := by
  constructor
  · intro s ymd now now' hp
    have hne : s ≠ "" := by
      intro h
      rw [h] at hp
      have : strptime_Ymd "" = none := rfl
      rw [this] at hp
      cases hp
    constructor
    · simp only [get_effective_date]
      rw [if_pos hne, hp]
    · simp only [get_effective_date]
      rw [if_pos hne, hp, if_pos hne]
  · intro s now hp
    by_cases hne : s ≠ ""
    · simp only [get_effective_date]
      rw [if_pos hne, hp]
    · simp only [get_effective_date]
      rw [if_neg hne]

/-- Witness for C8: `"2024-12-06"` parses and overrides the live clock;
`"not-a-date"` and the out-of-range `"2024-02-30"` fall back to it. -/
theorem claim_C8_witness :
    (strptime_Ymd "2024-12-06" = some (2024, 12, 6)
      ∧ strptime_Ymd "not-a-date" = none
      ∧ strptime_Ymd "2024-02-30" = none)
    ∧ get_effective_date (some "2024-12-06") (2025, 8, 17)
        = .overridden (2024, 12, 6)
    ∧ get_effective_date (some "not-a-date") (2025, 8, 17) = .live (2025, 8, 17)
    ∧ get_effective_date (some "2024-02-30") (2025, 8, 17) = .live (2025, 8, 17) :=
  ⟨⟨by decide, by decide, by decide⟩,
   (claim_C8_override_date.1 "2024-12-06" (2024, 12, 6) (2025, 8, 17) (2025, 8, 17)
     (by decide)).1,
   claim_C8_override_date.2 "not-a-date" (2025, 8, 17) (by decide),
   claim_C8_override_date.2 "2024-02-30" (2025, 8, 17) (by decide)⟩

/-- Counterexample to claim C10: an HTTP 200 body whose single part has no
`text` key returns the empty string, not the sentinel. -/
theorem claim_C10_counterexample :
    call_gemini_with_search_grounding
        (.resp 200 ⟨some [⟨some ⟨some [⟨none⟩]⟩⟩]⟩) = some ""
    ∧ some "" ≠ some grounding_sentinel := by
  constructor
  · rfl
  · decide

/-- Claim C10 (amended): `None` is returned exactly on exceptions and
non-200 statuses; a 200 body with no (or empty) `candidates`, or whose
first candidate lacks `content` or a `parts` key, returns the sentinel; a
200 body with a `parts` list returns the newline-join of its `text` fields
(the empty string when none is present); the sentinel fails the downstream
length check. -/
theorem claim_C10_grounding_result :
    (∀ (r : HTTPResult),
        call_gemini_with_search_grounding r = none ↔
          ((∃ e, r = .exn e) ∨ (∃ st b, r = .resp st b ∧ st ≠ 200)))
    ∧ (∀ (b : RBody),
        (b.candidates = none ∨ b.candidates = some []) →
        call_gemini_with_search_grounding (.resp 200 b) = some grounding_sentinel)
    ∧ (∀ (b : RBody) (c : RCandidate) (rest : List RCandidate),
        b.candidates = some (c :: rest) →
        (c.content = none ∨ (∃ ct, c.content = some ct ∧ ct.parts = none)) →
        call_gemini_with_search_grounding (.resp 200 b) = some grounding_sentinel)
    ∧ (∀ (b : RBody) (c : RCandidate) (rest : List RCandidate) (ct : RContent)
        (ps : List RPart),
        b.candidates = some (c :: rest) → c.content = some ct → ct.parts = some ps →
        call_gemini_with_search_grounding (.resp 200 b)
          = some (String.intercalate "\n" (ps.filterMap fun p => p.text)))
    ∧ grounding_response_accepted (some grounding_sentinel) = false := by
  refine ⟨?_, ?_, ?_, ?_, ?_⟩
  · intro r
    constructor
    · intro h
      cases r with
      | exn e => exact Or.inl ⟨e, rfl⟩
      | resp st b =>
        refine Or.inr ⟨st, b, rfl, ?_⟩
        intro hst
        rw [show call_gemini_with_search_grounding (.resp st b)
            = if st = 200 then _ else none from rfl, if_pos hst] at h
        cases h
    · rintro (⟨e, rfl⟩ | ⟨st, b, rfl, hst⟩)
      · rfl
      · simp only [call_gemini_with_search_grounding]
        rw [if_neg hst]
  · intro b hb
    rcases hb with hb | hb
    · simp [call_gemini_with_search_grounding, hb]
    · simp [call_gemini_with_search_grounding, hb]
  · intro b c rest hb hc
    rcases hc with hc | ⟨ct, hc, hp⟩
    · simp [call_gemini_with_search_grounding, hb, hc]
    · simp [call_gemini_with_search_grounding, hb, hc, hp]
  · intro b c rest ct ps hb hc hp
    simp [call_gemini_with_search_grounding, hb, hc, hp]
  · decide

/-- Witness for the amended C10 at concrete inputs. -/
theorem claim_C10_witness :
    ((RBody.mk (some [⟨some ⟨some [⟨some "tips body"⟩, ⟨some "more"⟩]⟩⟩])).candidates
        = some [⟨some ⟨some [⟨some "tips body"⟩, ⟨some "more"⟩]⟩⟩]
      ∧ (404 : Nat) ≠ 200)
    ∧ call_gemini_with_search_grounding
        (.resp 200 ⟨some [⟨some ⟨some [⟨some "tips body"⟩, ⟨some "more"⟩]⟩⟩]⟩)
        = some (String.intercalate "\n" ["tips body", "more"])
    ∧ call_gemini_with_search_grounding (.resp 404 ⟨none⟩) = none
    ∧ call_gemini_with_search_grounding (.resp 200 ⟨none⟩) = some grounding_sentinel :=
  ⟨⟨rfl, by decide⟩,
   claim_C10_grounding_result.2.2.2.1
     ⟨some [⟨some ⟨some [⟨some "tips body"⟩, ⟨some "more"⟩]⟩⟩]⟩
     ⟨some ⟨some [⟨some "tips body"⟩, ⟨some "more"⟩]⟩⟩ []
     ⟨some [⟨some "tips body"⟩, ⟨some "more"⟩]⟩
     [⟨some "tips body"⟩, ⟨some "more"⟩] rfl rfl rfl,
   (claim_C10_grounding_result.1 (.resp 404 ⟨none⟩)).2 (Or.inr ⟨404, ⟨none⟩, rfl, by decide⟩),
   claim_C10_grounding_result.2.1 ⟨none⟩ (Or.inl rfl)⟩
